import Mathlib

/-!
# Fray: scene node, scene queries, colour evaluator and frame sampler

A shallow embedding of `src/main.cpp`.

* C++ `double` values that are only *compared* (hit distances) are values of `Dbl`:
  a rational, an infinity or NaN, with the IEEE-754 comparisons `<` and `>=`.
* Where the rounding of double arithmetic matters, `Bin` is a double with its rounding to 53
  significant bits.
* `Vector`, `Color`, the shaders, geometries, transforms, the camera and the environment
  live in headers that are not part of `main.cpp`; they are type and function parameters.
* Calls to the collaborators are recorded in a ghost log of `Event`s, so that "is invoked",
  "exactly once" and "before" are statements about that log.
* A shader may call back into `raytrace`; `raytrace` therefore carries a bound on the number
  of nested calls (`fuel`), and `none` means that the bound was too small.
-/

namespace Fray

/-! ## Doubles that are compared -/

/-- A C++ `double` as far as comparisons are concerned. -/
inductive Dbl where
  | nan
  | ninf
  | fin (q : ℚ)
  | pinf
  deriving DecidableEq

/-- IEEE-754 `a < b`: false as soon as one side is NaN. -/
def Dbl.lt : Dbl → Dbl → Bool
  | .fin a, .fin b => decide (a < b)
  | .ninf, .fin _ => true
  | .ninf, .pinf => true
  | .fin _, .pinf => true
  | _, _ => false

/-- IEEE-754 `a >= b`: false as soon as one side is NaN. -/
def Dbl.ge : Dbl → Dbl → Bool
  | .nan, _ => false
  | _, .nan => false
  | a, b => !(Dbl.lt a b)

/-- The literal `1e99`: the double nearest to ten to the 99th, which is this integer. -/
def sentinel : Dbl :=
  .fin 999999999999999967336168804116691273849533185806555472917961779471295845921727862608739868455469056

/-! ## Data model -/

/-- `Ray`: the fields `main.cpp` reads and writes. -/
structure Ray (V : Type) where
  start : V
  dir : V
  depth : Int

/-- `IntersectionInfo`: `ip`, `norm`, `dist` and, in `rest`, every field `main.cpp` never
touches (texture coordinates and the like). -/
structure IntersectionInfo (V X : Type) where
  ip : V
  norm : V
  dist : Dbl
  rest : X

/-- `Transform` (matrix.h): the four maps `Node::intersect` uses. -/
structure Transform (V : Type) where
  transformPoint : V → V
  untransformPoint : V → V
  transformDir : V → V
  untransformDir : V → V

/-- What `vector.h`, `color.h` and `util.h` provide to `main.cpp`. -/
structure Lib (V C : Type) where
  /-- `operator-` on vectors -/
  sub : V → V → V
  /-- `Vector::normalize` -/
  normalize : V → V
  /-- `distance(a, b)` -/
  distance : V → V → Dbl
  /-- depth of a default-constructed `Ray` -/
  defaultDepth : Int
  /-- `Color(0, 0, 0)` -/
  black : C
  /-- `Color::operator+=` -/
  add : C → C → C
  /-- `Color / int` -/
  div : C → Int → C
  MAX_TRACE_DEPTH : Int
  VFB_MAX_SIZE : Nat

/-- Modelled from the spec: `Shader::shade` is not in `main.cpp`. The spec gives a shader
"access to the Color Evaluator and the Occlusion query as ambient services it may call";
a run of `shade` is the tree of those calls: it returns a colour, or asks `raytrace` for the
colour of a ray and goes on with the answer, or asks `visible` and goes on with the answer. -/
inductive ShadeProg (V C : Type) where
  | done (c : C)
  | trace (r : Ray V) (k : C → ShadeProg V C)
  | visible (a b : V) (k : Bool → ShadeProg V C)

/-- `struct Node`. `geometry` is `geometry->intersect(localRay, info)`: the returned flag and
the contents of `info` after the call (on a miss: whatever the geometry left there; `info`
is uninitialised before the call). `shader` is `shader->shade(ray, info)`. -/
structure Node (V X C : Type) where
  geometry : Ray V → Bool × IntersectionInfo V X
  shader : Ray V → IntersectionInfo V X → ShadeProg V C
  T : Transform V

/-- `CubemapEnvironment env`: the flag `loaded` and `getEnvironment(dir)`. -/
structure Environment (V C : Type) where
  loaded : Bool
  getEnvironment : V → C

/-- The globals `nodes` and `env`. -/
structure Scene (V X C : Type) where
  nodes : List (Node V X C)
  env : Environment V C

/-- `Camera` (camera.h) over its state `K`. -/
structure Camera (V K : Type) where
  beginFrame : K → K
  getScreenRay : K → ℚ → ℚ → Ray V

/-- Ghost log: the calls made by the code of `main.cpp`, in the order they are made. -/
inductive Event (V X C : Type) where
  | raytrace (ray : Ray V)
  | intersect (i : Nat) (ray : Ray V)
  | shade (i : Nat) (ray : Ray V) (info : IntersectionInfo V X)
  | getEnvironment (dir : V)
  | beginFrame
  | getScreenRay (x y : ℚ)
  | store (y x : Nat) (c : C)

section Core

variable {V X C K : Type}

/-! ## Node::intersect -/

/-- The ray `Node::intersect` hands to the geometry (lines 51-53). -/
def Node.localRay (node : Node V X C) (ray : Ray V) : Ray V :=
  { ray with
    start := node.T.untransformPoint ray.start
    dir := node.T.untransformDir ray.dir }

/-- `Node::intersect` (lines 49-61): the returned flag and `info` after the call. -/
def Node.intersect (L : Lib V C) (node : Node V X C) (ray : Ray V) :
    Bool × IntersectionInfo V X :=
  let localRay := node.localRay ray
  let r := node.geometry localRay
  if !r.1 then (false, r.2)
  else
    let info := r.2
    let info := { info with ip := node.T.transformPoint info.ip }
    let info := { info with norm := node.T.transformDir info.norm }
    let info := { info with dist := L.distance ray.start info.ip }
    (true, info)

/-! ## visible -/

/-- The ray built by `visible` (lines 124-128). -/
def visibleRay (L : Lib V C) (a b : V) : Ray V :=
  { start := a, dir := L.normalize (L.sub b a), depth := L.defaultDepth }

/-- The loop of `visible` (lines 130-137) from node index `i` on. -/
def visibleLoop (L : Lib V C) (ray : Ray V) (maxDist : Dbl) :
    Nat → List (Node V X C) → Bool × List (Event V X C)
  | _, [] => (true, [])
  | i, node :: rest =>
    let r := node.intersect L ray
    if r.1 && r.2.dist.lt maxDist then (false, [Event.intersect i ray])
    else
      let out := visibleLoop L ray maxDist (i + 1) rest
      (out.1, Event.intersect i ray :: out.2)

/-- `visible(a, b)` (lines 122-138). -/
def visible (L : Lib V C) (sc : Scene V X C) (a b : V) : Bool × List (Event V X C) :=
  visibleLoop L (visibleRay L a b) (L.distance a b) 0 sc.nodes

/-! ## raytrace -/

/-- The locals `closestNode` and `closestIntersection` of `raytrace`. `dist` is
`closestIntersection.dist`; `sel` is `none` while `closestNode` and the other fields of
`closestIntersection` are still uninitialised, and afterwards the node last copied into
`closestNode` (with its index in `nodes`) and the info last copied. -/
structure Closest (V X C : Type) where
  dist : Dbl
  sel : Option (Nat × Node V X C × IntersectionInfo V X)

/-- One iteration of the loop of `raytrace` (lines 150-154). -/
def closestStep (L : Lib V C) (ray : Ray V) (st : Closest V X C) (i : Nat)
    (node : Node V X C) : Closest V X C :=
  let r := node.intersect L ray
  if r.1 && r.2.dist.lt st.dist then { dist := r.2.dist, sel := some (i, node, r.2) }
  else st

/-- The loop of `raytrace` (lines 149-155) from node index `i` on, with the log of its
`intersect` calls. -/
def closestLoop (L : Lib V C) (ray : Ray V) :
    Nat → List (Node V X C) → Closest V X C → Closest V X C × List (Event V X C)
  | _, [], st => (st, [])
  | i, node :: rest, st =>
    let out := closestLoop L ray (i + 1) rest (closestStep L ray st i node)
    (out.1, Event.intersect i ray :: out.2)

/-- Running a shader: `cb` answers its `raytrace` calls, `visible` is called directly. -/
def runShade (L : Lib V C) (sc : Scene V X C)
    (cb : Ray V → Option (C × List (Event V X C))) :
    ShadeProg V C → Option (C × List (Event V X C))
  | .done c => some (c, [])
  | .trace r k =>
    match cb r with
    | none => none
    | some (c, l) =>
      match runShade L sc cb (k c) with
      | none => none
      | some (c2, l2) => some (c2, l ++ l2)
  | .visible a b k =>
    let v := visible L sc a b
    match runShade L sc cb (k v.1) with
    | none => none
    | some (c2, l2) => some (c2, v.2 ++ l2)

/-- `raytrace(Ray)` (lines 140-164) with at most `fuel` nested calls of `raytrace`.
`none`: the bound was too small, or `shade` was reached through the uninitialised
`closestNode`. -/
def raytrace (L : Lib V C) (sc : Scene V X C) :
    Nat → Ray V → Option (C × List (Event V X C))
  | 0, _ => none
  | fuel + 1, ray =>
    if ray.depth > L.MAX_TRACE_DEPTH then some (L.black, [Event.raytrace ray])
    else
      let out := closestLoop L ray 0 sc.nodes { dist := sentinel, sel := none }
      if out.1.dist.ge sentinel then
        if sc.env.loaded then
          some (sc.env.getEnvironment ray.dir,
            Event.raytrace ray :: (out.2 ++ [Event.getEnvironment ray.dir]))
        else some (L.black, Event.raytrace ray :: out.2)
      else
        match out.1.sel with
        | none => none
        | some (i, node, info) =>
          match runShade L sc (raytrace L sc fuel) (node.shader ray info) with
          | none => none
          | some (c, l) =>
            some (c, Event.raytrace ray :: (out.2 ++ Event.shade i ray info :: l))

/-! ## render -/

/-- The table `offsets` of `render` (lines 176-182); the decimal literals are read as
rationals. -/
def offsets : List (ℚ × ℚ) :=
  [(0, 0), (6 / 10, 0), (3 / 10, 3 / 10), (0, 6 / 10), (6 / 10, 6 / 10)]

/-- `numAASamples = COUNT_OF(offsets)` (line 183). -/
def numAASamples : Nat := offsets.length

/-- `offsets[i]`. -/
def offsetAt (i : Nat) : ℚ × ℚ := offsets.getD i (0, 0)

/-- The globals `render` reads besides the scene: the camera's operations, the flag
`antialiasing`, and the values of `frameWidth()` and `frameHeight()` (a dimension that is
not positive runs no iteration, like 0). -/
structure Frame (V K : Type) where
  camera : Camera V K
  antialiasing : Bool
  frameWidth : Nat
  frameHeight : Nat

/-- The globals `render` writes: the state of `camera` and the array `vfb`, read as
`vfb y x` for `vfb[y][x]`. -/
structure RenderState (C K : Type) where
  cam : K
  vfb : Nat → Nat → C

/-- `raytrace(double x, double y)` (lines 166-169) on the camera state `cam`. -/
def raytraceXY (L : Lib V C) (sc : Scene V X C) (F : Frame V K) (fuel : Nat) (cam : K)
    (x y : ℚ) : Option (C × List (Event V X C)) :=
  match raytrace L sc fuel (F.camera.getScreenRay cam x y) with
  | none => none
  | some (c, l) => some (c, Event.getScreenRay x y :: l)

/-- The loop `for (int i = 1; i < numAASamples; i++) avg += raytrace(...)` (lines 189-190)
over the remaining indices `is`. -/
def aaLoop (L : Lib V C) (sc : Scene V X C) (F : Frame V K) (fuel : Nat) (cam : K)
    (x y : Nat) : List Nat → C → Option (C × List (Event V X C))
  | [], avg => some (avg, [])
  | i :: is, avg =>
    match raytraceXY L sc F fuel cam ((x : ℚ) + (offsetAt i).1) ((y : ℚ) + (offsetAt i).2) with
    | none => none
    | some (c, l) =>
      match aaLoop L sc F fuel cam x y is (L.add avg c) with
      | none => none
      | some (c2, l2) => some (c2, l ++ l2)

/-- The assignment `vfb[y][x] = c` into `Color vfb[VFB_MAX_SIZE][VFB_MAX_SIZE]` (line 42);
`none` for an index outside the array. -/
def storeVfb (L : Lib V C) (vfb : Nat → Nat → C) (y x : Nat) (c : C) :
    Option (Nat → Nat → C) :=
  if y < L.VFB_MAX_SIZE ∧ x < L.VFB_MAX_SIZE then
    some (fun y2 x2 => if y2 = y ∧ x2 = x then c else vfb y2 x2)
  else none

/-- The colour `render` computes for the pixel `(x, y)` (lines 187-194, without the
store). -/
def pixelColor (L : Lib V C) (sc : Scene V X C) (F : Frame V K) (fuel : Nat) (cam : K)
    (x y : Nat) : Option (C × List (Event V X C)) :=
  match raytraceXY L sc F fuel cam ((x : ℚ) + (offsetAt 0).1) ((y : ℚ) + (offsetAt 0).2) with
  | none => none
  | some (avg, l) =>
    if F.antialiasing then
      match aaLoop L sc F fuel cam x y ((List.range numAASamples).drop 1) avg with
      | none => none
      | some (avg2, l2) => some (L.div avg2 (numAASamples : Int), l ++ l2)
    else some (avg, l)

/-- The body of the inner loop of `render` (lines 187-194). -/
def renderPixel (L : Lib V C) (sc : Scene V X C) (F : Frame V K) (fuel : Nat) (cam : K)
    (y x : Nat) (vfb : Nat → Nat → C) : Option ((Nat → Nat → C) × List (Event V X C)) :=
  match pixelColor L sc F fuel cam x y with
  | none => none
  | some (c, l) =>
    match storeVfb L vfb y x c with
    | none => none
    | some vfb2 => some (vfb2, l ++ [Event.store y x c])

/-- The loop `for (int x = 0; x < frameWidth(); x++)` (line 186) over the remaining `xs`. -/
def rowLoop (L : Lib V C) (sc : Scene V X C) (F : Frame V K) (fuel : Nat) (cam : K)
    (y : Nat) : List Nat → (Nat → Nat → C) → Option ((Nat → Nat → C) × List (Event V X C))
  | [], vfb => some (vfb, [])
  | x :: xs, vfb =>
    match renderPixel L sc F fuel cam y x vfb with
    | none => none
    | some (vfb2, l) =>
      match rowLoop L sc F fuel cam y xs vfb2 with
      | none => none
      | some (vfb3, l3) => some (vfb3, l ++ l3)

/-- The loop `for (int y = 0; y < frameHeight(); y++)` (line 185) over the remaining `ys`. -/
def frameLoop (L : Lib V C) (sc : Scene V X C) (F : Frame V K) (fuel : Nat) (cam : K) :
    List Nat → (Nat → Nat → C) → Option ((Nat → Nat → C) × List (Event V X C))
  | [], vfb => some (vfb, [])
  | y :: ys, vfb =>
    match rowLoop L sc F fuel cam y (List.range F.frameWidth) vfb with
    | none => none
    | some (vfb2, l) =>
      match frameLoop L sc F fuel cam ys vfb2 with
      | none => none
      | some (vfb3, l3) => some (vfb3, l ++ l3)

/-- `render()` (lines 171-200), each sample with at most `fuel` nested calls of `raytrace`;
the clock and `printf` are left out. `none`: a sample ran out of `fuel` or a store fell
outside `vfb`. -/
def render (L : Lib V C) (sc : Scene V X C) (F : Frame V K) (fuel : Nat)
    (st : RenderState C K) : Option (RenderState C K × List (Event V X C)) :=
  let cam := F.camera.beginFrame st.cam
  match frameLoop L sc F fuel cam (List.range F.frameHeight) st.vfb with
  | none => none
  | some (vfb, l) => some ({ cam := cam, vfb := vfb }, Event.beginFrame :: l)

/-! ## Vocabulary of the statements -/

/-- The flag returned by `node.intersect(ray, info)`. -/
def Node.hits (L : Lib V C) (ray : Ray V) (node : Node V X C) : Bool :=
  (node.intersect L ray).1

/-- The `info` left by `node.intersect(ray, info)`. -/
def Node.info (L : Lib V C) (ray : Ray V) (node : Node V X C) : IntersectionInfo V X :=
  (node.intersect L ray).2

/-- One `intersect` call for each of the first `n` nodes, in sequence order. -/
def intersectLog (ray : Ray V) (n : Nat) : List (Event V X C) :=
  (List.range n).map (fun j => Event.intersect j ray)

/-- The shader exit of `raytrace(ray)` with the node `node` at index `k`: the result is the
run of `node.shader->shade(ray, info)` on that node's own info, nested `raytrace` calls
answered with `fuel`; the log is one `intersect` per node, the `shade` call, and what the
shader's own calls log. -/
def ShadesWith (L : Lib V C) (sc : Scene V X C) (fuel : Nat) (ray : Ray V) (k : Nat)
    (node : Node V X C) : Prop :=
  raytrace L sc (fuel + 1) ray =
    (runShade L sc (raytrace L sc fuel) (node.shader ray (node.info L ray))).map
      (fun r => (r.1, Event.raytrace ray ::
        (intersectLog ray sc.nodes.length ++ Event.shade k ray (node.info L ray) :: r.2)))

/-- Every ray a run of `shade` hands to `raytrace` has depth `d`. -/
def ShadeProg.ChildDepth (d : Int) : ShadeProg V C → Prop
  | .done _ => True
  | .trace r k => r.depth = d ∧ ∀ c, ChildDepth d (k c)
  | .visible _ _ k => ∀ v, ChildDepth d (k v)

/-- Every shader of the scene calls `raytrace` only with child rays of the incoming ray's
depth + 1. -/
def Scene.SpawnsDeeper (sc : Scene V X C) : Prop :=
  ∀ node ∈ sc.nodes, ∀ (ray : Ray V) (info : IntersectionInfo V X),
    (node.shader ray info).ChildDepth (ray.depth + 1)

/-- The sample of pixel `(x, y)` at `offsets[i]`, as `render` takes it. -/
def sampleAt (L : Lib V C) (sc : Scene V X C) (F : Frame V K) (fuel : Nat) (cam : K)
    (x y i : Nat) : Option (C × List (Event V X C)) :=
  raytraceXY L sc F fuel cam ((x : ℚ) + (offsetAt i).1) ((y : ℚ) + (offsetAt i).2)

/-- Two nodes that differ at most in what their geometry leaves in `info` when it reports
no hit. -/
def Node.SameHits (n1 n2 : Node V X C) : Prop :=
  n1.shader = n2.shader ∧ n1.T = n2.T ∧
  ∀ ray, (n1.geometry ray).1 = (n2.geometry ray).1 ∧
    ((n1.geometry ray).1 = true → (n1.geometry ray).2 = (n2.geometry ray).2)

/-- The node `node` attains the minimal hit distance of `ray` among `nodes`: it hits below
the sentinel and no hitting node has a smaller hit distance. -/
def Attains (L : Lib V C) (nodes : List (Node V X C)) (ray : Ray V) (node : Node V X C) :
    Prop :=
  node ∈ nodes ∧ node.hits L ray = true ∧ (node.info L ray).dist.lt sentinel = true ∧
  ∀ m ∈ nodes, m.hits L ray = true → (m.info L ray).dist.lt (node.info L ray).dist = false

/-- The minimal hit distance of `ray` is attained by at most one node: the nodes that attain
it are all the same node. -/
def TieFree (L : Lib V C) (nodes : List (Node V X C)) (ray : Ray V) : Prop :=
  ∀ m1 m2, Attains L nodes ray m1 → Attains L nodes ray m2 → m1 = m2

/-- The pixels of the frame as pairs `(y, x)`, in the order `render` visits them: row after
row, each row from left to right. -/
def rowMajor (F : Frame V K) : List (Nat × Nat) :=
  (List.range F.frameHeight).flatMap (fun y => (List.range F.frameWidth).map (fun x => (y, x)))

/-- The body of the inner loop of `render` (lines 187-194) run over the pixels `ps`, given as
pairs `(y, x)`, in the order of `ps`. -/
def pixelLoop (L : Lib V C) (sc : Scene V X C) (F : Frame V K) (fuel : Nat) (cam : K) :
    List (Nat × Nat) → (Nat → Nat → C) → Option ((Nat → Nat → C) × List (Event V X C))
  | [], vfb => some (vfb, [])
  | q :: qs, vfb =>
    match renderPixel L sc F fuel cam q.1 q.2 vfb with
    | none => none
    | some (vfb2, l) =>
      match pixelLoop L sc F fuel cam qs vfb2 with
      | none => none
      | some (vfb3, l3) => some (vfb3, l ++ l3)

/-- The frame sampler of the spec with the evaluation order left open: `render` with its two
loops replaced by one pass over the pixels in the order `order`. -/
def renderInOrder (L : Lib V C) (sc : Scene V X C) (F : Frame V K) (fuel : Nat)
    (order : List (Nat × Nat)) (st : RenderState C K) :
    Option (RenderState C K × List (Event V X C)) :=
  let cam := F.camera.beginFrame st.cam
  match pixelLoop L sc F fuel cam order st.vfb with
  | none => none
  | some (vfb, l) => some ({ cam := cam, vfb := vfb }, Event.beginFrame :: l)

/-- The cell a log entry assigns: `(y, x)` for the store `vfb[y][x] = c`, nothing for the
other entries. -/
def Event.storeIndex : Event V X C → Option (Nat × Nat)
  | .store y x _ => some (y, x)
  | _ => none

/-- The log entries made while one sample is taken: the ray generation, and what `raytrace`
and `visible` log. -/
def Event.inSample : Event V X C → Bool
  | .raytrace _ => true
  | .intersect _ _ => true
  | .shade _ _ _ => true
  | .getEnvironment _ => true
  | .getScreenRay _ _ => true
  | .beginFrame => false
  | .store _ _ _ => false

/-- The number of samples `render` takes per pixel: all of `offsets` with antialiasing, the
first one without. -/
def samplesPerPixel (F : Frame V K) : Nat :=
  if F.antialiasing then numAASamples else 1


/-- The array after the assignments recorded in a log have been made on `vfb`, in the order
of the log: each entry `store y x c` is the assignment `vfb[y][x] = c`, the other entries
leave the array as it is. -/
def replayStores : List (Event V X C) → (Nat → Nat → C) → (Nat → Nat → C)
  | [], vfb => vfb
  | .store y x c :: rest, vfb =>
    replayStores rest (fun y2 x2 => if y2 = y ∧ x2 = x then c else vfb y2 x2)
  | .raytrace _ :: rest, vfb => replayStores rest vfb
  | .intersect _ _ :: rest, vfb => replayStores rest vfb
  | .shade _ _ _ :: rest, vfb => replayStores rest vfb
  | .getEnvironment _ :: rest, vfb => replayStores rest vfb
  | .beginFrame :: rest, vfb => replayStores rest vfb
  | .getScreenRay _ _ :: rest, vfb => replayStores rest vfb

/-! ## A world on a line, for the examples

Vectors and colours are rationals: points of a line and grey levels. Every operation is
exact there, so the examples can be evaluated. -/

/-- The library on the line: `distance a b` is the absolute value of `b - a`. -/
def lineLib : Lib ℚ ℚ where
  sub := fun a b => a - b
  normalize := fun v => if v = 0 then 0 else v / |v|
  distance := fun a b => Dbl.fin |b - a|
  defaultDepth := 0
  black := 0
  add := fun a b => a + b
  div := fun c n => c / (n : ℚ)
  MAX_TRACE_DEPTH := 3
  VFB_MAX_SIZE := 4

/-- The identity transform. -/
def idTransform (V : Type) : Transform V where
  transformPoint := fun v => v
  untransformPoint := fun v => v
  transformDir := fun v => v
  untransformDir := fun v => v

/-- A point of the line at position `p`: a ray hits it when it starts elsewhere and runs
towards it. -/
def pointGeometry (p : ℚ) (ray : Ray ℚ) : Bool × IntersectionInfo ℚ Unit :=
  (decide (0 < (p - ray.start) * ray.dir),
    { ip := p, norm := -ray.dir, dist := Dbl.fin (|p - ray.start| / |ray.dir|), rest := () })

/-- A point at `p` painted with the grey level `c`. -/
def paintedPoint (p c : ℚ) : Node ℚ Unit ℚ where
  geometry := pointGeometry p
  shader := fun _ _ => ShadeProg.done c
  T := idTransform ℚ

/-- A mirror at `p`: the colour seen in it is the colour of the reflected ray, one level
deeper. -/
def mirrorPoint (p : ℚ) : Node ℚ Unit ℚ where
  geometry := pointGeometry p
  shader := fun ray info =>
    ShadeProg.trace { start := info.ip, dir := -ray.dir, depth := ray.depth + 1 }
      (fun c => ShadeProg.done c)
  T := idTransform ℚ

/-- No environment map loaded. -/
def noEnv : Environment ℚ ℚ where
  loaded := false
  getEnvironment := fun _ => 0

/-- A loaded environment: grey level 7 in every direction. -/
def greyEnv : Environment ℚ ℚ where
  loaded := true
  getEnvironment := fun _ => 7

/-- The primary ray of the examples: from the origin, in the positive direction. -/
def forwardRay : Ray ℚ := { start := 0, dir := 1, depth := 0 }

/-- A far point painted 1 before a near point painted 2. -/
def twoPoints : Scene ℚ Unit ℚ where
  nodes := [paintedPoint 5 1, paintedPoint 3 2]
  env := noEnv

/-- Two points at the same place, painted 1 and 2, behind a third point further away. -/
def tiedPoints : Scene ℚ Unit ℚ where
  nodes := [paintedPoint 5 9, paintedPoint 3 1, paintedPoint 3 2]
  env := noEnv

/-- A ray beyond the depth limit of `lineLib`. -/
def deepRay : Ray ℚ := { start := 0, dir := 1, depth := 4 }

/-- A single point behind the start of `forwardRay`, under a loaded environment. -/
def pointBehind : Scene ℚ Unit ℚ where
  nodes := [paintedPoint (-2) 1]
  env := greyEnv

/-- Two mirrors facing each other, with the start of `forwardRay` in between. -/
def twoMirrors : Scene ℚ Unit ℚ where
  nodes := [mirrorPoint 3, mirrorPoint (-3)]
  env := greyEnv

/-- A camera on the line: its state is its position and the number of frames begun; it
looks backwards left of screen coordinate 1 and forwards from there on. -/
def lineCamera : Camera ℚ (ℚ × Nat) where
  beginFrame := fun k => (k.1, k.2 + 1)
  getScreenRay := fun k x _ => { start := k.1, dir := if x < 1 then -1 else 1, depth := 0 }

/-- A frame of two pixels in one row, antialiased. -/
def smallFrame : Frame ℚ (ℚ × Nat) where
  camera := lineCamera
  antialiasing := true
  frameWidth := 2
  frameHeight := 1

/-- The camera at the origin before its first frame, and a framebuffer filled with `c`. -/
def filledState (c : ℚ) : RenderState ℚ (ℚ × Nat) where
  cam := (0, 0)
  vfb := fun _ _ => c

/-- The frame of `smallFrame` without antialiasing. -/
def plainFrame : Frame ℚ (ℚ × Nat) where
  camera := lineCamera
  antialiasing := false
  frameWidth := 2
  frameHeight := 1

/-- Modelled from the spec: `Transform` is declared in matrix.h, outside `main.cpp`. This is
the pure translation by `t`: points move by `t` between local and world space, and the
"direction transform ignores translation". -/
def translation {V : Type} [Add V] [Sub V] (t : V) : Transform V where
  transformPoint := fun p => p + t
  untransformPoint := fun p => p - t
  transformDir := fun d => d
  untransformDir := fun d => d

/-- The point of the line at local position `p`, painted `c`, moved by `t`. -/
def movedPoint (p c t : ℚ) : Node ℚ Unit ℚ where
  geometry := pointGeometry p
  shader := fun _ _ => ShadeProg.done c
  T := translation t

/-- A single point further away than the sentinel, painted 5, under a loaded environment. -/
def farPoint : Scene ℚ Unit ℚ where
  nodes := [paintedPoint (10 ^ 100) 5]
  env := greyEnv

/-- The point of `paintedPoint`, except that on a miss its geometry leaves a distance below
every other in `info`, and other values in the remaining fields. -/
def junkPoint (p c : ℚ) : Node ℚ Unit ℚ where
  geometry := fun ray =>
    if (pointGeometry p ray).1 then pointGeometry p ray
    else (false, { ip := 99, norm := 99, dist := Dbl.ninf, rest := () })
  shader := fun _ _ => ShadeProg.done c
  T := idTransform ℚ

/-- The scene `pointBehind` with the point replaced by its `junkPoint`. -/
def junkBehind : Scene ℚ Unit ℚ where
  nodes := [junkPoint (-2) 1]
  env := greyEnv

/-- A mirror ahead of `forwardRay`, and behind its start two points at the same place,
painted 1 and 2. -/
def mirrorTie : Scene ℚ Unit ℚ where
  nodes := [mirrorPoint 3, paintedPoint (-3) 1, paintedPoint (-3) 2]
  env := noEnv

/-- The scene `mirrorTie` with the two painted points in the other order. -/
def mirrorTieSwapped : Scene ℚ Unit ℚ where
  nodes := [mirrorPoint 3, paintedPoint (-3) 2, paintedPoint (-3) 1]
  env := noEnv

/-! ## Doubles with their rounding, on a line

The arithmetic of `vector.h` works on C++ doubles. `Bin` is a double as an integer times a
power of two, and every operation rounds its exact result to 53 significant bits, to
nearest, ties to even. The exponent range is not modelled. -/

/-- The number `m` times 2 to the power `e`. -/
structure Bin where
  m : Int
  e : Int
  deriving DecidableEq

/-- The value of a `Bin` as a rational. -/
def Bin.toRat (b : Bin) : ℚ := (b.m : ℚ) * (2 : ℚ) ^ b.e

/-- The number of binary digits of `n`, by halving at most `fuel` times. -/
def bitLengthAux : Nat → Nat → Nat
  | 0, _ => 0
  | fuel + 1, n => if n = 0 then 0 else bitLengthAux fuel (n / 2) + 1

/-- The number of binary digits of `n`. -/
def bitLength (n : Nat) : Nat := bitLengthAux n n

/-- Rounding to 53 significant bits, to nearest, ties to even. -/
def Bin.round (b : Bin) : Bin :=
  let n := b.m.natAbs
  if bitLength n ≤ 53 then b
  else
    let shift := bitLength n - 53
    let q := n / 2 ^ shift
    let rem := n % 2 ^ shift
    let half := 2 ^ (shift - 1)
    let q2 := if half < rem ∨ (rem = half ∧ q % 2 = 1) then q + 1 else q
    { m := if b.m < 0 then -(q2 : Int) else (q2 : Int), e := b.e + shift }

/-- The exact sum, before rounding. -/
def Bin.exactAdd (a b : Bin) : Bin :=
  let e := min a.e b.e
  { m := a.m * 2 ^ (a.e - e).toNat + b.m * 2 ^ (b.e - e).toNat, e := e }

/-- The number `-a`. -/
def Bin.neg (a : Bin) : Bin := { m := -a.m, e := a.e }

/-- The absolute value (`fabs`). -/
def Bin.abs (a : Bin) : Bin := { m := (a.m.natAbs : Int), e := a.e }

/-- The double `a + b`. -/
def Bin.add (a b : Bin) : Bin := (Bin.exactAdd a b).round

/-- The double `a - b`. -/
def Bin.sub (a b : Bin) : Bin := (Bin.exactAdd a b.neg).round

instance : Add Bin := ⟨Bin.add⟩

instance : Sub Bin := ⟨Bin.sub⟩

/-- Modelled from the spec: `distance` and the vector operators are declared in vector.h,
outside `main.cpp`; the spec calls `distance` "the Euclidean distance". On a line of doubles
that is the absolute value of the rounded difference. -/
def doubleLib : Lib Bin ℚ where
  sub := fun a b => a - b
  normalize := fun v => { m := v.m.sign, e := 0 }
  distance := fun a b => Dbl.fin (b - a).abs.toRat
  defaultDepth := 0
  black := 0
  add := fun a b => a + b
  div := fun c n => c / (n : ℚ)
  MAX_TRACE_DEPTH := 3
  VFB_MAX_SIZE := 4

/-- A point of the line of doubles at position `p`: a ray hits it when it starts elsewhere
and runs towards it. -/
def binPointGeometry (p : Bin) (ray : Ray Bin) : Bool × IntersectionInfo Bin Unit :=
  (decide (0 < (p - ray.start).m * ray.dir.m),
    { ip := p, norm := ray.dir.neg, dist := Dbl.fin (p - ray.start).abs.toRat, rest := () })

/-- The double `0.1`. -/
def oneTenth : Bin := { m := 3602879701896397, e := -55 }

/-- The point at the local position `0.7`, in a node translated by `0.1`. -/
def driftNode : Node Bin Unit ℚ where
  geometry := binPointGeometry { m := 3152519739159347, e := -52 }
  shader := fun _ _ => ShadeProg.done 0
  T := translation oneTenth

/-- The world ray from `0.3` in the positive direction. -/
def driftRay : Ray Bin :=
  { start := { m := 5404319552844595, e := -54 }, dir := { m := 1, e := 0 }, depth := 0 }

/-! ## Vectors with coordinates, for the unit-length examples -/

/-- A vector with rational coordinates. -/
structure Vec3 where
  x : ℚ
  y : ℚ
  z : ℚ
  deriving DecidableEq

/-- The square of the length; a vector has unit length exactly when it is 1. -/
def Vec3.lengthSqr (v : Vec3) : ℚ := v.x * v.x + v.y * v.y + v.z * v.z

/-- The vector `s * v`. -/
def Vec3.scale (s : ℚ) (v : Vec3) : Vec3 := { x := s * v.x, y := s * v.y, z := s * v.z }

/-- Modelled from the spec: `Transform` is declared in matrix.h, outside `main.cpp`; the spec
has transforms map "between a node's local object space and world space, and back" and
names "scaling in the transform". This is the uniform scaling by `s`: local to world
multiplies by `s`, world to local by its inverse. -/
def scaleTransform (s : ℚ) : Transform Vec3 where
  transformPoint := Vec3.scale s
  untransformPoint := Vec3.scale s⁻¹
  transformDir := Vec3.scale s
  untransformDir := Vec3.scale s⁻¹

/-- Modelled from the spec: a `Transform` (matrix.h) that is a rotation, the quarter turn
about the z axis. -/
def quarterTurn : Transform Vec3 where
  transformPoint := fun v => { x := -v.y, y := v.x, z := v.z }
  untransformPoint := fun v => { x := v.y, y := -v.x, z := v.z }
  transformDir := fun v => { x := -v.y, y := v.x, z := v.z }
  untransformDir := fun v => { x := v.y, y := -v.x, z := v.z }

/-- A node with transform `T` whose geometry is never hit. -/
def emptyNode (T : Transform Vec3) : Node Vec3 Unit ℚ where
  geometry := fun ray =>
    (false, { ip := ray.start, norm := ray.dir, dist := Dbl.nan, rest := () })
  shader := fun _ _ => ShadeProg.done 0
  T := T

/-- A world ray along the x axis. -/
def xAxisRay : Ray Vec3 :=
  { start := { x := 0, y := 0, z := -10 }, dir := { x := 1, y := 0, z := 0 }, depth := 0 }

end Core

/-! # Theorems -/

section Proofs

variable {V X C K : Type}

/-! ## Comparison of doubles -/

theorem Dbl.lt_self (a : Dbl) : a.lt a = false := by
  cases a <;> simp [Dbl.lt]

theorem Dbl.lt_chain {a b c : Dbl} (hab : a.lt b = true) (hbc : b.lt c = true) :
    a.lt c = true := by
  cases a <;> cases b <;> cases c <;> simp [Dbl.lt] at hab hbc ⊢
  exact lt_trans hab hbc

theorem Dbl.ge_eq_false_of_lt {a b : Dbl} (hab : a.lt b = true) : a.ge b = false := by
  cases a <;> cases b <;> simp [Dbl.lt, Dbl.ge] at hab ⊢
  exact hab

theorem Dbl.ge_sentinel : sentinel.ge sentinel = true := by
  simp [sentinel, Dbl.ge, Dbl.lt]

/-! ## The loop of raytrace -/

theorem closestLoop_log (L : Lib V C) (ray : Ray V) :
    ∀ (nodes : List (Node V X C)) (i : Nat) (st : Closest V X C),
      (closestLoop L ray i nodes st).2
        = (List.range nodes.length).map (fun j => Event.intersect (i + j) ray) := by
  intro nodes
  induction nodes with
  | nil => intro i st; simp [closestLoop]
  | cons n rest ih =>
    intro i st
    simp only [closestLoop, List.length_cons, List.range_succ_eq_map, List.map_cons,
      List.map_map, ih]
    simp only [Nat.add_zero, List.cons.injEq, true_and]
    apply List.map_congr_left
    intro j _
    simp only [Function.comp, Nat.succ_eq_add_one]
    congr 1
    omega

/-- What the loop of `raytrace` leaves in `closestNode` / `closestIntersection`: either
nothing was copied and no node hits below the initial distance, or the copy is the first
node among those of minimal hit distance. -/
theorem closestLoop_spec (L : Lib V C) (ray : Ray V) :
    ∀ (nodes : List (Node V X C)) (i : Nat) (st : Closest V X C),
      ((closestLoop L ray i nodes st).1 = st ∧
        ∀ m ∈ nodes, ¬ (m.hits L ray = true ∧ (m.info L ray).dist.lt st.dist = true))
      ∨ ∃ k node, nodes[k]? = some node ∧
          (closestLoop L ray i nodes st).1
            = { dist := (node.info L ray).dist, sel := some (i + k, node, node.info L ray) } ∧
          node.hits L ray = true ∧
          (node.info L ray).dist.lt st.dist = true ∧
          (∀ m ∈ nodes, m.hits L ray = true →
            (m.info L ray).dist.lt (node.info L ray).dist = false) ∧
          (∀ j m, j < k → nodes[j]? = some m → m.hits L ray = true →
            (m.info L ray).dist ≠ (node.info L ray).dist) := by
  intro nodes
  induction nodes with
  | nil => intro i st; left; simp [closestLoop]
  | cons n rest ih =>
    intro i st
    simp only [closestLoop]
    by_cases hn : n.hits L ray = true ∧ (n.info L ray).dist.lt st.dist = true
    · have hstep : closestStep L ray st i n
          = { dist := (n.info L ray).dist, sel := some (i, n, n.info L ray) } := by
        have h1 := hn.1
        have h2 := hn.2
        simp only [Node.hits, Node.info] at h1 h2
        simp [closestStep, Node.info, h1, h2]
      rw [hstep]
      rcases ih (i + 1) { dist := (n.info L ray).dist, sel := some (i, n, n.info L ray) } with
        ⟨hf, hnone⟩ | ⟨k, node, hk, hf, hhit, hlt, hmin, htie⟩
      · right
        refine ⟨0, n, by simp, by simpa using hf, hn.1, hn.2, ?_, ?_⟩
        · intro m hm hmh
          rcases List.mem_cons.1 hm with rfl | hm
          · exact Dbl.lt_self _
          · have := hnone m hm
            simp only [not_and, Bool.not_eq_true] at this
            exact this hmh
        · intro j m hj; omega
      · right
        refine ⟨k + 1, node, by simpa using hk, ?_, hhit, Dbl.lt_chain hlt hn.2, ?_, ?_⟩
        · rw [hf]; congr 3; omega
        · intro m hm hmh
          rcases List.mem_cons.1 hm with rfl | hm
          · cases hc : (m.info L ray).dist.lt (node.info L ray).dist with
            | false => rfl
            | true =>
              have := Dbl.lt_chain hc hlt
              rw [Dbl.lt_self] at this
              exact absurd this (by simp)
          · exact hmin m hm hmh
        · intro j m hj hjm hmh heq
          cases j with
          | zero =>
            simp only [List.getElem?_cons_zero, Option.some.injEq] at hjm
            subst hjm
            simp only [Node.info] at hlt heq
            rw [heq, Dbl.lt_self] at hlt
            exact absurd hlt (by simp)
          | succ j =>
            simp only [List.getElem?_cons_succ] at hjm
            exact htie j m (by omega) hjm hmh heq
    · have hstep : closestStep L ray st i n = st := by
        simp only [Node.hits, Node.info] at hn
        simp only [closestStep]
        rw [if_neg]
        simpa using hn
      rw [hstep]
      rcases ih (i + 1) st with ⟨hf, hnone⟩ | ⟨k, node, hk, hf, hhit, hlt, hmin, htie⟩
      · left
        refine ⟨hf, ?_⟩
        intro m hm
        rcases List.mem_cons.1 hm with rfl | hm
        · exact hn
        · exact hnone m hm
      · right
        refine ⟨k + 1, node, by simpa using hk, ?_, hhit, hlt, ?_, ?_⟩
        · rw [hf]; congr 3; omega
        · intro m hm hmh
          rcases List.mem_cons.1 hm with rfl | hm
          · cases hc : (m.info L ray).dist.lt (node.info L ray).dist with
            | false => rfl
            | true => exact absurd ⟨hmh, Dbl.lt_chain hc hlt⟩ hn
          · exact hmin m hm hmh
        · intro j m hj hjm hmh heq
          cases j with
          | zero =>
            simp only [List.getElem?_cons_zero, Option.some.injEq] at hjm
            subst hjm
            exact hn ⟨hmh, by rw [heq]; exact hlt⟩
          | succ j =>
            simp only [List.getElem?_cons_succ] at hjm
            exact htie j m (by omega) hjm hmh heq

theorem closestLoop_log_zero (L : Lib V C) (ray : Ray V) (nodes : List (Node V X C))
    (st : Closest V X C) :
    (closestLoop L ray 0 nodes st).2 = intersectLog ray nodes.length := by
  rw [closestLoop_log]
  simp [intersectLog]

/-! ## The two exits of raytrace -/

/-- The environment / black exit: taken when no node hits below the sentinel. -/
theorem raytrace_fallback (L : Lib V C) (sc : Scene V X C) (fuel : Nat) (ray : Ray V)
    (hdepth : ray.depth ≤ L.MAX_TRACE_DEPTH)
    (hnone : ∀ m ∈ sc.nodes,
      ¬ (m.hits L ray = true ∧ (m.info L ray).dist.lt sentinel = true)) :
    raytrace L sc (fuel + 1) ray =
      if sc.env.loaded then
        some (sc.env.getEnvironment ray.dir,
          Event.raytrace ray ::
            (intersectLog ray sc.nodes.length ++ [Event.getEnvironment ray.dir]))
      else some (L.black, Event.raytrace ray :: intersectLog ray sc.nodes.length) := by
  have hd : ¬ ray.depth > L.MAX_TRACE_DEPTH := by omega
  rcases closestLoop_spec L ray sc.nodes 0 { dist := sentinel, sel := none } with
    ⟨hf, _⟩ | ⟨k, node, hk, _, hhit, hlt, _, _⟩
  · simp only [raytrace, if_neg hd, hf, Dbl.ge_sentinel, if_true, closestLoop_log_zero]
  · exact absurd ⟨hhit, hlt⟩ (hnone node (List.getElem?_mem hk))

/-- The shader exit: taken with the node the loop selected. -/
theorem raytrace_selected (L : Lib V C) (sc : Scene V X C) (fuel : Nat) (ray : Ray V)
    (hdepth : ray.depth ≤ L.MAX_TRACE_DEPTH) (k : Nat) (node : Node V X C)
    (hf : (closestLoop L ray 0 sc.nodes { dist := sentinel, sel := none }).1
      = { dist := (node.info L ray).dist, sel := some (k, node, node.info L ray) })
    (hlt : (node.info L ray).dist.lt sentinel = true) :
    raytrace L sc (fuel + 1) ray =
      (runShade L sc (raytrace L sc fuel) (node.shader ray (node.info L ray))).map
        (fun r => (r.1, Event.raytrace ray ::
          (intersectLog ray sc.nodes.length ++ Event.shade k ray (node.info L ray) :: r.2))) := by
  have hd : ¬ ray.depth > L.MAX_TRACE_DEPTH := by omega
  simp only [raytrace, if_neg hd, hf, Dbl.ge_eq_false_of_lt hlt, closestLoop_log_zero]
  cases runShade L sc (raytrace L sc fuel) (node.shader ray (node.info L ray)) with
  | none => simp
  | some r => simp

/-! ## Nearest hit and tie-break -/

theorem Dbl.eq_of_not_lt {a b s : Dbl} (ha : a.lt s = true) (hb : b.lt s = true)
    (hab : a.lt b = false) (hba : b.lt a = false) : a = b := by
  cases a <;> cases b <;> cases s <;> simp [Dbl.lt] at ha hb hab hba ⊢ <;>
    exact le_antisymm hba hab

/-- C1 (nearest hit). For a ray within the depth limit and a scene in which some node hits
below the sentinel, `raytrace` is the run of the shader of a node `node` of the scene, at
index `k`, on the incoming ray and that node's own info; `node` hits below the sentinel and
no hitting node has a smaller hit distance. The log shows one `intersect` per node, then
that one `shade` call, and no environment lookup at this level. -/
theorem raytrace_nearest_hit (L : Lib V C) (sc : Scene V X C) (fuel : Nat) (ray : Ray V)
    (hdepth : ray.depth ≤ L.MAX_TRACE_DEPTH)
    (hhit : ∃ m ∈ sc.nodes, m.hits L ray = true ∧ (m.info L ray).dist.lt sentinel = true) :
    ∃ k node, sc.nodes[k]? = some node ∧ node.hits L ray = true ∧
      (node.info L ray).dist.lt sentinel = true ∧
      (∀ m ∈ sc.nodes, m.hits L ray = true →
        (m.info L ray).dist.lt (node.info L ray).dist = false) ∧
      ShadesWith L sc fuel ray k node := by
  rcases closestLoop_spec L ray sc.nodes 0 { dist := sentinel, sel := none } with
    ⟨_, hnone⟩ | ⟨k, node, hk, hf, hh, hlt, hmin, _⟩
  · obtain ⟨m, hm, hmh, hml⟩ := hhit
    exact absurd ⟨hmh, hml⟩ (hnone m hm)
  · refine ⟨k, node, hk, hh, hlt, hmin, ?_⟩
    rw [Nat.zero_add] at hf
    exact raytrace_selected L sc fuel ray hdepth k node hf hlt

/-- C2 (tie-break). For a ray within the depth limit: when `node`, at index `k`, hits below
the sentinel, no hitting node has a smaller hit distance, and no hitting node before `k` has
the same hit distance (`k` is the least index attaining the minimum), then `raytrace` shades
with the node at index `k`. -/
theorem raytrace_tie_break (L : Lib V C) (sc : Scene V X C) (fuel : Nat) (ray : Ray V)
    (hdepth : ray.depth ≤ L.MAX_TRACE_DEPTH) (k : Nat) (node : Node V X C)
    (hk : sc.nodes[k]? = some node) (hhit : node.hits L ray = true)
    (hlt : (node.info L ray).dist.lt sentinel = true)
    (hmin : ∀ m ∈ sc.nodes, m.hits L ray = true →
      (m.info L ray).dist.lt (node.info L ray).dist = false)
    (hfirst : ∀ j m, j < k → sc.nodes[j]? = some m → m.hits L ray = true →
      (m.info L ray).dist ≠ (node.info L ray).dist) :
    ShadesWith L sc fuel ray k node := by
  rcases closestLoop_spec L ray sc.nodes 0 { dist := sentinel, sel := none } with
    ⟨_, hnone⟩ | ⟨k2, node2, hk2, hf, hh2, hlt2, hmin2, htie2⟩
  · exact absurd ⟨hhit, hlt⟩ (hnone node (List.getElem?_mem hk))
  · have hdist : (node.info L ray).dist = (node2.info L ray).dist :=
      Dbl.eq_of_not_lt hlt hlt2 (hmin2 node (List.getElem?_mem hk) hhit)
        (hmin node2 (List.getElem?_mem hk2) hh2)
    have hkk : k2 = k := by
      rcases Nat.lt_trichotomy k2 k with h | h | h
      · exact absurd hdist.symm (hfirst k2 node2 h hk2 hh2)
      · exact h
      · exact absurd hdist (htie2 k node h hk hhit)
    subst hkk
    have hnn : node2 = node := by
      rw [hk] at hk2
      exact (Option.some.inj hk2).symm
    subst hnn
    rw [Nat.zero_add] at hf
    exact raytrace_selected L sc fuel ray hdepth k2 node2 hf hlt

theorem raytrace_nearest_hit_witness :
    ∃ k node, twoPoints.nodes[k]? = some node ∧ node.hits lineLib forwardRay = true ∧
      (node.info lineLib forwardRay).dist.lt sentinel = true ∧
      (∀ m ∈ twoPoints.nodes, m.hits lineLib forwardRay = true →
        (m.info lineLib forwardRay).dist.lt (node.info lineLib forwardRay).dist = false) ∧
      ShadesWith lineLib twoPoints 0 forwardRay k node :=
  raytrace_nearest_hit lineLib twoPoints 0 forwardRay (by decide)
    ⟨paintedPoint 3 2, by simp [twoPoints],
      by simp [Node.hits, Node.intersect, Node.localRay, paintedPoint, pointGeometry,
        idTransform, forwardRay],
      by norm_num [Node.info, Node.intersect, Node.localRay, paintedPoint, pointGeometry,
        idTransform, forwardRay, lineLib, Dbl.lt, sentinel]⟩

/-! ## The points of the line -/

theorem Node.intersect_fst (L : Lib V C) (node : Node V X C) (ray : Ray V) :
    (node.intersect L ray).1 = (node.geometry (node.localRay ray)).1 := by
  unfold Node.intersect
  cases h : (node.geometry (node.localRay ray)).1 <;> simp [h]

theorem Node.intersect_snd_of_hit (L : Lib V C) (node : Node V X C) (ray : Ray V)
    (h : (node.geometry (node.localRay ray)).1 = true) :
    (node.intersect L ray).2 =
      { ip := node.T.transformPoint (node.geometry (node.localRay ray)).2.ip
        norm := node.T.transformDir (node.geometry (node.localRay ray)).2.norm
        dist := L.distance ray.start
          (node.T.transformPoint (node.geometry (node.localRay ray)).2.ip)
        rest := (node.geometry (node.localRay ray)).2.rest } := by
  unfold Node.intersect
  simp [h]

theorem paintedPoint_hits (p c : ℚ) (ray : Ray ℚ) :
    (paintedPoint p c).hits lineLib ray = decide (0 < (p - ray.start) * ray.dir) := by
  rw [Node.hits, Node.intersect_fst]
  simp [Node.localRay, paintedPoint, pointGeometry, idTransform]

theorem paintedPoint_dist (p c : ℚ) (ray : Ray ℚ)
    (h : (paintedPoint p c).hits lineLib ray = true) :
    ((paintedPoint p c).info lineLib ray).dist = Dbl.fin |p - ray.start| := by
  rw [Node.hits, Node.intersect_fst] at h
  rw [Node.info, Node.intersect_snd_of_hit _ _ _ h]
  simp [paintedPoint, pointGeometry, idTransform, lineLib]

theorem raytrace_tie_break_witness :
    ShadesWith lineLib tiedPoints 0 forwardRay 1 (paintedPoint 3 1) :=
  raytrace_tie_break lineLib tiedPoints 0 forwardRay (by decide) 1 (paintedPoint 3 1) rfl
    (by simp [paintedPoint_hits, forwardRay])
    (by
      rw [paintedPoint_dist _ _ _ (by simp [paintedPoint_hits, forwardRay])]
      norm_num [Dbl.lt, sentinel, forwardRay])
    (by
      intro m hm hmh
      simp only [tiedPoints, List.mem_cons, List.mem_singleton, List.not_mem_nil,
        or_false] at hm
      rw [paintedPoint_dist 3 1 _ (by simp [paintedPoint_hits, forwardRay])]
      rcases hm with rfl | rfl | rfl <;>
        rw [paintedPoint_dist _ _ _ hmh] <;> norm_num [Dbl.lt, forwardRay])
    (by
      intro j m hj hjm hmh
      have hj0 : j = 0 := by omega
      subst hj0
      simp only [tiedPoints, List.getElem?_cons_zero, Option.some.injEq] at hjm
      subst hjm
      rw [paintedPoint_dist _ _ _ hmh,
        paintedPoint_dist 3 1 _ (by simp [paintedPoint_hits, forwardRay])]
      norm_num [forwardRay])

/-! ## visible -/

theorem visibleLoop_false_iff (L : Lib V C) (ray : Ray V) (maxDist : Dbl) :
    ∀ (nodes : List (Node V X C)) (i : Nat),
      (visibleLoop L ray maxDist i nodes).1 = false ↔
        ∃ m ∈ nodes, m.hits L ray = true ∧ (m.info L ray).dist.lt maxDist = true := by
  intro nodes
  induction nodes with
  | nil => intro i; simp [visibleLoop]
  | cons n rest ih =>
    intro i
    simp only [visibleLoop]
    by_cases hn : n.hits L ray = true ∧ (n.info L ray).dist.lt maxDist = true
    · have hc : ((n.intersect L ray).1 && (n.intersect L ray).2.dist.lt maxDist) = true := by
        simpa [Node.hits, Node.info] using hn
      rw [if_pos hc]
      simp only [true_iff]
      exact ⟨n, List.mem_cons_self _ _, hn⟩
    · have hc : ¬ ((n.intersect L ray).1 && (n.intersect L ray).2.dist.lt maxDist) = true := by
        simpa [Node.hits, Node.info] using hn
      rw [if_neg hc]
      simp only [ih]
      constructor
      · rintro ⟨m, hm, h⟩
        exact ⟨m, List.mem_cons_of_mem _ hm, h⟩
      · rintro ⟨m, hm, h⟩
        rcases List.mem_cons.1 hm with rfl | hm
        · exact absurd h hn
        · exact ⟨m, hm, h⟩

/-- C3 (occlusion query). The ray of `visible(a, b)` starts at `a` with direction
`normalize(b - a)`; `visible(a, b)` is false exactly when some node hits that ray at a
distance strictly below `distance(a, b)`; so when every hitting node hits at a distance equal
to `distance(a, b)`, or otherwise not below it, the result is true. -/
theorem visible_false_iff (L : Lib V C) (sc : Scene V X C) (a b : V) :
    (visibleRay L a b).start = a ∧ (visibleRay L a b).dir = L.normalize (L.sub b a) ∧
    ((visible L sc a b).1 = false ↔
      ∃ m ∈ sc.nodes, m.hits L (visibleRay L a b) = true ∧
        (m.info L (visibleRay L a b)).dist.lt (L.distance a b) = true) ∧
    ((∀ m ∈ sc.nodes, m.hits L (visibleRay L a b) = true →
        (m.info L (visibleRay L a b)).dist = L.distance a b ∨
        (m.info L (visibleRay L a b)).dist.lt (L.distance a b) = false) →
      (visible L sc a b).1 = true) := by
  refine ⟨rfl, rfl, visibleLoop_false_iff L _ _ sc.nodes 0, ?_⟩
  intro h
  cases hv : (visible L sc a b).1 with
  | true => rfl
  | false =>
    obtain ⟨m, hm, hmh, hml⟩ := (visibleLoop_false_iff L _ _ sc.nodes 0).1 hv
    rcases h m hm hmh with heq | hnl
    · rw [heq, Dbl.lt_self] at hml
      exact absurd hml (by simp)
    · rw [hnl] at hml
      exact absurd hml (by simp)

/-! ## Depth guard and fallback -/

theorem raytrace_beyond_limit (L : Lib V C) (sc : Scene V X C) (fuel : Nat) (ray : Ray V)
    (hdepth : ray.depth > L.MAX_TRACE_DEPTH) :
    raytrace L sc (fuel + 1) ray = some (L.black, [Event.raytrace ray]) := by
  simp only [raytrace, if_pos hdepth]

/-- C4 (depth guard). A ray deeper than `MAX_TRACE_DEPTH` is black, whatever the nodes and
the environment, and the call logs nothing but its own entry: no `intersect`, no `shade`,
no environment lookup, no nested `raytrace`. -/
theorem raytrace_depth_guard (L : Lib V C) (sc : Scene V X C) (fuel : Nat) (ray : Ray V)
    (hdepth : ray.depth > L.MAX_TRACE_DEPTH) :
    raytrace L sc (fuel + 1) ray = some (L.black, [Event.raytrace ray]) :=
  raytrace_beyond_limit L sc fuel ray hdepth

theorem raytrace_depth_guard_witness :
    raytrace lineLib twoPoints 1 deepRay = some (lineLib.black, [Event.raytrace deepRay]) :=
  raytrace_depth_guard lineLib twoPoints 0 deepRay (by decide)

/-- C5 (no-hit fallback). For a ray within the depth limit and a scene in which no node
hits: without a loaded environment the result is black, with one it is
`env.getEnvironment(ray.dir)`; the log is one `intersect` per node and, when loaded, the
environment lookup: no `shade`. -/
theorem raytrace_no_hit (L : Lib V C) (sc : Scene V X C) (fuel : Nat) (ray : Ray V)
    (hdepth : ray.depth ≤ L.MAX_TRACE_DEPTH)
    (hnone : ∀ m ∈ sc.nodes, m.hits L ray = false) :
    (sc.env.loaded = false →
      raytrace L sc (fuel + 1) ray
        = some (L.black, Event.raytrace ray :: intersectLog ray sc.nodes.length)) ∧
    (sc.env.loaded = true →
      raytrace L sc (fuel + 1) ray
        = some (sc.env.getEnvironment ray.dir,
            Event.raytrace ray ::
              (intersectLog ray sc.nodes.length ++ [Event.getEnvironment ray.dir]))) := by
  have h := raytrace_fallback L sc fuel ray hdepth
    (fun m hm hh => by rw [hnone m hm] at hh; exact absurd hh.1 (by simp))
  constructor
  · intro hl
    rw [h, hl]
    simp
  · intro hl
    rw [h, hl]
    simp

theorem raytrace_no_hit_witness :
    (pointBehind.env.loaded = false →
      raytrace lineLib pointBehind 1 forwardRay
        = some (lineLib.black,
            Event.raytrace forwardRay :: intersectLog forwardRay pointBehind.nodes.length)) ∧
    (pointBehind.env.loaded = true →
      raytrace lineLib pointBehind 1 forwardRay
        = some (pointBehind.env.getEnvironment forwardRay.dir,
            Event.raytrace forwardRay ::
              (intersectLog forwardRay pointBehind.nodes.length ++
                [Event.getEnvironment forwardRay.dir]))) :=
  raytrace_no_hit lineLib pointBehind 0 forwardRay (by decide)
    (by
      intro m hm
      simp only [pointBehind, List.mem_singleton] at hm
      subst hm
      simp [paintedPoint_hits, forwardRay])

/-! ## Termination -/

/-- Within the depth limit `raytrace` leaves by the environment / black exit or by the
shader exit of a node of the scene. -/
theorem raytrace_cases (L : Lib V C) (sc : Scene V X C) (ray : Ray V)
    (hdepth : ray.depth ≤ L.MAX_TRACE_DEPTH) :
    (∃ r, ∀ n, raytrace L sc (n + 1) ray = some r) ∨
    ∃ k node, node ∈ sc.nodes ∧ ∀ n, ShadesWith L sc n ray k node := by
  rcases closestLoop_spec L ray sc.nodes 0 { dist := sentinel, sel := none } with
    ⟨_, hnone⟩ | ⟨k, node, hk, hf, _, hlt, _, _⟩
  · left
    by_cases hl : sc.env.loaded = true
    · exact ⟨_, fun n => by rw [raytrace_fallback L sc n ray hdepth hnone, if_pos hl]⟩
    · exact ⟨_, fun n => by rw [raytrace_fallback L sc n ray hdepth hnone, if_neg hl]⟩
  · right
    rw [Nat.zero_add] at hf
    exact ⟨k, node, List.getElem?_mem hk,
      fun n => raytrace_selected L sc n ray hdepth k node hf hlt⟩

theorem runShade_mono (L : Lib V C) (sc : Scene V X C)
    (cb cb2 : Ray V → Option (C × List (Event V X C)))
    (hcb : ∀ r x, cb r = some x → cb2 r = some x) :
    ∀ (p : ShadeProg V C) (y : C × List (Event V X C)),
      runShade L sc cb p = some y → runShade L sc cb2 p = some y := by
  intro p
  induction p with
  | done c => intro y h; simpa [runShade] using h
  | trace r k ih =>
    intro y h
    simp only [runShade] at h ⊢
    cases hr : cb r with
    | none => simp [hr] at h
    | some x =>
      rw [hcb r x hr]
      rw [hr] at h
      simp only at h ⊢
      cases hk : runShade L sc cb (k x.1) with
      | none => simp [hk] at h
      | some z =>
        rw [ih x.1 z hk]
        rw [hk] at h
        exact h
  | visible a b k ih =>
    intro y h
    simp only [runShade] at h ⊢
    cases hk : runShade L sc cb (k (visible L sc a b).1) with
    | none => simp [hk] at h
    | some z =>
      rw [ih _ z hk]
      rw [hk] at h
      exact h

/-- More fuel does not change a result. -/
theorem raytrace_mono (L : Lib V C) (sc : Scene V X C) :
    ∀ (fuel : Nat) (ray : Ray V) (r : C × List (Event V X C)),
      raytrace L sc fuel ray = some r → raytrace L sc (fuel + 1) ray = some r := by
  intro fuel
  induction fuel with
  | zero => intro ray r h; simp [raytrace] at h
  | succ n ih =>
    intro ray r h
    by_cases hd : ray.depth > L.MAX_TRACE_DEPTH
    · rw [raytrace_beyond_limit L sc n ray hd] at h
      rw [raytrace_beyond_limit L sc (n + 1) ray hd]
      exact h
    · rcases raytrace_cases L sc ray (by omega) with ⟨x, hx⟩ | ⟨k, node, _, hs⟩
      · rw [hx n] at h
        rw [hx (n + 1)]
        exact h
      · rw [hs n] at h
        rw [hs (n + 1)]
        cases hrun : runShade L sc (raytrace L sc n) (node.shader ray (node.info L ray)) with
        | none => simp [hrun] at h
        | some y =>
          rw [runShade_mono L sc _ _ ih _ y hrun]
          rw [hrun] at h
          exact h

theorem raytrace_mono_le (L : Lib V C) (sc : Scene V X C) (ray : Ray V)
    (r : C × List (Event V X C)) (fuel : Nat) (h : raytrace L sc fuel ray = some r) :
    ∀ fuel2, fuel ≤ fuel2 → raytrace L sc fuel2 ray = some r := by
  intro fuel2 hle
  induction fuel2 with
  | zero =>
    have h0 : fuel = 0 := by omega
    rw [← h0]
    exact h
  | succ m ih =>
    rcases Nat.eq_or_lt_of_le hle with heq | hlt
    · rw [← heq]
      exact h
    · exact raytrace_mono L sc m ray r (ih (by omega))

theorem runShade_isSome (L : Lib V C) (sc : Scene V X C)
    (cb : Ray V → Option (C × List (Event V X C))) (d : Int)
    (hcb : ∀ r : Ray V, r.depth = d → ∃ x, cb r = some x) :
    ∀ p : ShadeProg V C, p.ChildDepth d → ∃ y, runShade L sc cb p = some y := by
  intro p
  induction p with
  | done c => intro _; exact ⟨_, rfl⟩
  | trace r k ih =>
    intro hp
    obtain ⟨x, hx⟩ := hcb r hp.1
    obtain ⟨y, hy⟩ := ih x.1 (hp.2 x.1)
    exact ⟨(y.1, x.2 ++ y.2), by simp only [runShade, hx, hy]⟩
  | visible a b k ih =>
    intro hp
    obtain ⟨y, hy⟩ := ih _ (hp (visible L sc a b).1)
    exact ⟨(y.1, (visible L sc a b).2 ++ y.2), by simp only [runShade, hy]⟩

theorem raytrace_returns (L : Lib V C) (sc : Scene V X C) (hsc : sc.SpawnsDeeper) :
    ∀ (fuel : Nat) (ray : Ray V),
      1 ≤ fuel → (L.MAX_TRACE_DEPTH + 2 - ray.depth).toNat ≤ fuel →
      ∃ r, raytrace L sc fuel ray = some r := by
  intro fuel
  induction fuel with
  | zero => intro ray h1; omega
  | succ n ih =>
    intro ray _ hb
    by_cases hd : ray.depth > L.MAX_TRACE_DEPTH
    · exact ⟨_, raytrace_beyond_limit L sc n ray hd⟩
    · rcases raytrace_cases L sc ray (by omega) with ⟨x, hx⟩ | ⟨k, node, hmem, hs⟩
      · exact ⟨x, hx n⟩
      · have hchild : ∀ r : Ray V, r.depth = ray.depth + 1 →
            ∃ x, raytrace L sc n r = some x := by
          intro r hr
          apply ih r
          · omega
          · rw [hr]; omega
        obtain ⟨y, hy⟩ := runShade_isSome L sc (raytrace L sc n) (ray.depth + 1) hchild
          (node.shader ray (node.info L ray)) (hsc node hmem ray (node.info L ray))
        rw [hs n, hy]
        exact ⟨_, rfl⟩

/-- C6 (depth termination). When every shader calls `raytrace` only with child rays of the
incoming depth + 1, then for every ray of depth `d` and every scene: `raytrace` returns with
`MAX_TRACE_DEPTH + 2 - d` nested calls (one call when `d` is beyond the limit), more
nesting is never used (a larger bound gives the same result), and a call at depth
`MAX_TRACE_DEPTH + 1`, the last of a longest chain, is black. -/
theorem raytrace_terminates (L : Lib V C) (sc : Scene V X C) (hsc : sc.SpawnsDeeper)
    (ray : Ray V) :
    (∃ r, ∀ fuel, 1 ≤ fuel → (L.MAX_TRACE_DEPTH + 2 - ray.depth).toNat ≤ fuel →
      raytrace L sc fuel ray = some r) ∧
    (∀ (inner : Ray V) (fuel : Nat), inner.depth = L.MAX_TRACE_DEPTH + 1 →
      raytrace L sc (fuel + 1) inner = some (L.black, [Event.raytrace inner])) := by
  constructor
  · obtain ⟨r, hr⟩ := raytrace_returns L sc hsc
      (max 1 (L.MAX_TRACE_DEPTH + 2 - ray.depth).toNat) ray (le_max_left _ _)
      (le_max_right _ _)
    exact ⟨r, fun fuel h1 h2 => raytrace_mono_le L sc ray r _ hr fuel (max_le h1 h2)⟩
  · intro inner fuel hin
    exact raytrace_beyond_limit L sc fuel inner (by omega)

theorem raytrace_terminates_witness :
    (∃ r, ∀ fuel, 1 ≤ fuel → (lineLib.MAX_TRACE_DEPTH + 2 - forwardRay.depth).toNat ≤ fuel →
      raytrace lineLib twoMirrors fuel forwardRay = some r) ∧
    (∀ (inner : Ray ℚ) (fuel : Nat), inner.depth = lineLib.MAX_TRACE_DEPTH + 1 →
      raytrace lineLib twoMirrors (fuel + 1) inner
        = some (lineLib.black, [Event.raytrace inner])) :=
  raytrace_terminates lineLib twoMirrors
    (by
      intro node hm ray info
      simp only [twoMirrors, List.mem_cons, List.mem_singleton, List.not_mem_nil,
        or_false] at hm
      rcases hm with rfl | rfl <;> simp [mirrorPoint, ShadeProg.ChildDepth])
    forwardRay

/-! ## Node::intersect on a hit -/

/-- C7 (postcondition of `Node::intersect` on a hit). When the geometry reports a hit on the
local ray, with local result `g`, `Node::intersect` returns true and leaves
`ip = T.transformPoint(g.ip)`, `norm = T.transformDir(g.norm)`,
`dist = distance(ray.start, T.transformPoint(g.ip))` from the world ray's start (`g.dist` is
not used), and the remaining fields as in `g`. -/
theorem Node.intersect_hit (L : Lib V C) (node : Node V X C) (ray : Ray V)
    (h : (node.geometry (node.localRay ray)).1 = true) :
    node.intersect L ray =
      (true,
        { ip := node.T.transformPoint (node.geometry (node.localRay ray)).2.ip
          norm := node.T.transformDir (node.geometry (node.localRay ray)).2.norm
          dist := L.distance ray.start
            (node.T.transformPoint (node.geometry (node.localRay ray)).2.ip)
          rest := (node.geometry (node.localRay ray)).2.rest }) := by
  unfold Node.intersect
  simp [h]

theorem Node.intersect_hit_witness :
    (paintedPoint 3 2).intersect lineLib forwardRay =
      (true,
        { ip := (paintedPoint 3 2).T.transformPoint
            ((paintedPoint 3 2).geometry ((paintedPoint 3 2).localRay forwardRay)).2.ip
          norm := (paintedPoint 3 2).T.transformDir
            ((paintedPoint 3 2).geometry ((paintedPoint 3 2).localRay forwardRay)).2.norm
          dist := lineLib.distance forwardRay.start
            ((paintedPoint 3 2).T.transformPoint
              ((paintedPoint 3 2).geometry ((paintedPoint 3 2).localRay forwardRay)).2.ip)
          rest :=
            ((paintedPoint 3 2).geometry ((paintedPoint 3 2).localRay forwardRay)).2.rest }) :=
  Node.intersect_hit lineLib (paintedPoint 3 2) forwardRay
    (by simp [Node.localRay, paintedPoint, pointGeometry, idTransform, forwardRay])

/-! ## render -/

theorem aaLoop_some (L : Lib V C) (sc : Scene V X C) (F : Frame V K) (fuel : Nat) (cam : K)
    (x y : Nat) (col : Nat → C) (lg : Nat → List (Event V X C)) :
    ∀ (is : List Nat) (avg : C),
      (∀ i ∈ is, sampleAt L sc F fuel cam x y i = some (col i, lg i)) →
      aaLoop L sc F fuel cam x y is avg
        = some (is.foldl (fun a i => L.add a (col i)) avg, is.flatMap lg) := by
  intro is
  induction is with
  | nil => intro avg _; simp [aaLoop]
  | cons i rest ih =>
    intro avg h
    have hi := h i (List.mem_cons_self _ _)
    simp only [sampleAt] at hi
    simp only [aaLoop, hi, ih (L.add avg (col i)) (fun j hj => h j (List.mem_cons_of_mem _ hj)),
      List.foldl_cons, List.flatMap_cons]

theorem aa_indices : (List.range numAASamples).drop 1 = [1, 2, 3, 4] := by
  decide

/-- The colour of an antialiased pixel from its five samples. -/
theorem pixelColor_antialiased (L : Lib V C) (sc : Scene V X C) (F : Frame V K) (fuel : Nat)
    (cam : K) (x y : Nat) (haa : F.antialiasing = true) (col : Nat → C)
    (lg : Nat → List (Event V X C))
    (h : ∀ i, i < 5 → sampleAt L sc F fuel cam x y i = some (col i, lg i)) :
    pixelColor L sc F fuel cam x y =
      some (L.div (L.add (L.add (L.add (L.add (col 0) (col 1)) (col 2)) (col 3)) (col 4)) 5,
        lg 0 ++ (lg 1 ++ (lg 2 ++ (lg 3 ++ lg 4)))) := by
  have h0 := h 0 (by omega)
  simp only [sampleAt] at h0
  have hloop := aaLoop_some L sc F fuel cam x y col lg [1, 2, 3, 4] (col 0)
    (fun i hi => h i (by
      simp only [List.mem_cons, List.mem_singleton, List.not_mem_nil, or_false] at hi
      omega))
  simp only [pixelColor, h0, haa, if_true, aa_indices, hloop]
  simp [numAASamples, offsets, List.flatMap]

/-- The colour of a pixel without antialiasing: its first sample. -/
theorem pixelColor_single (L : Lib V C) (sc : Scene V X C) (F : Frame V K) (fuel : Nat)
    (cam : K) (x y : Nat) (haa : F.antialiasing = false) :
    pixelColor L sc F fuel cam x y = sampleAt L sc F fuel cam x y 0 := by
  simp only [pixelColor, sampleAt, haa]
  cases raytraceXY L sc F fuel cam ((x : ℚ) + (offsetAt 0).1) ((y : ℚ) + (offsetAt 0).2) with
  | none => rfl
  | some r => simp

theorem rowLoop_some (L : Lib V C) (sc : Scene V X C) (F : Frame V K) (fuel : Nat) (cam : K)
    (y : Nat) (col : Nat → C) (lg : Nat → List (Event V X C)) :
    ∀ (xs : List Nat) (vfb : Nat → Nat → C),
      (∀ x ∈ xs, y < L.VFB_MAX_SIZE ∧ x < L.VFB_MAX_SIZE ∧
        pixelColor L sc F fuel cam x y = some (col x, lg x)) →
      rowLoop L sc F fuel cam y xs vfb
        = some (fun y2 x2 => if y2 = y ∧ x2 ∈ xs then col x2 else vfb y2 x2,
            xs.flatMap (fun x => lg x ++ [Event.store y x (col x)])) := by
  intro xs
  induction xs with
  | nil => intro vfb _; simp [rowLoop]
  | cons x rest ih =>
    intro vfb h
    obtain ⟨hy, hx, hp⟩ := h x (List.mem_cons_self _ _)
    have hst : storeVfb L vfb y x (col x)
        = some (fun y2 x2 => if y2 = y ∧ x2 = x then col x else vfb y2 x2) := by
      simp [storeVfb, hy, hx]
    simp only [rowLoop, renderPixel, hp, hst,
      ih _ (fun j hj => h j (List.mem_cons_of_mem _ hj)), List.flatMap_cons]
    congr 2
    funext y2 x2
    by_cases hy2 : y2 = y
    · by_cases hx2 : x2 = x
      · by_cases hm : x2 ∈ rest
        · simp [hy2, hx2]
        · simp [hy2, hx2]
      · simp [hy2, hx2]
    · simp [hy2]

theorem frameLoop_some (L : Lib V C) (sc : Scene V X C) (F : Frame V K) (fuel : Nat)
    (cam : K) (col : Nat → Nat → C) (lg : Nat → Nat → List (Event V X C)) :
    ∀ (ys : List Nat) (vfb : Nat → Nat → C),
      (∀ y ∈ ys, ∀ x, x < F.frameWidth → y < L.VFB_MAX_SIZE ∧ x < L.VFB_MAX_SIZE ∧
        pixelColor L sc F fuel cam x y = some (col x y, lg x y)) →
      frameLoop L sc F fuel cam ys vfb
        = some (fun y2 x2 => if y2 ∈ ys ∧ x2 < F.frameWidth then col x2 y2 else vfb y2 x2,
            ys.flatMap (fun y => (List.range F.frameWidth).flatMap
              (fun x => lg x y ++ [Event.store y x (col x y)]))) := by
  intro ys
  induction ys with
  | nil => intro vfb _; simp [frameLoop]
  | cons y rest ih =>
    intro vfb h
    have hp := h y (List.mem_cons_self _ _)
    have hrow := rowLoop_some L sc F fuel cam y (fun x => col x y) (fun x => lg x y)
      (List.range F.frameWidth) vfb (fun x hx => hp x (List.mem_range.1 hx))
    simp only [frameLoop, hrow, ih _ (fun j hj => h j (List.mem_cons_of_mem _ hj)),
      List.flatMap_cons]
    congr 2
    funext y2 x2
    by_cases hx2 : x2 < F.frameWidth
    · by_cases hy2 : y2 = y
      · by_cases hm : y2 ∈ rest
        · simp [hy2, hx2]
        · simp [hy2, hx2]
      · simp [hy2, hx2]
    · simp [hx2]

/-- What `render` does when every store of the frame falls into `vfb` and every pixel's
samples return: the camera state is the one `beginFrame` produced, the cells of the frame
hold the pixel colours, the other cells are untouched, and the log is `beginFrame` followed
by the pixels' logs and stores in row-major order. -/
theorem render_of_pixels (L : Lib V C) (sc : Scene V X C) (F : Frame V K) (fuel : Nat)
    (st : RenderState C K) (col : Nat → Nat → C) (lg : Nat → Nat → List (Event V X C))
    (hpix : ∀ x y, x < F.frameWidth → y < F.frameHeight →
      y < L.VFB_MAX_SIZE ∧ x < L.VFB_MAX_SIZE ∧
      pixelColor L sc F fuel (F.camera.beginFrame st.cam) x y = some (col x y, lg x y)) :
    render L sc F fuel st =
      some ({ cam := F.camera.beginFrame st.cam
              vfb := fun y x =>
                if y < F.frameHeight ∧ x < F.frameWidth then col x y else st.vfb y x },
        Event.beginFrame :: (List.range F.frameHeight).flatMap
          (fun y => (List.range F.frameWidth).flatMap
            (fun x => lg x y ++ [Event.store y x (col x y)]))) := by
  have h := frameLoop_some L sc F fuel (F.camera.beginFrame st.cam) col lg
    (List.range F.frameHeight) st.vfb
    (fun y hy x hx => hpix x y hx (List.mem_range.1 hy))
  simp only [render, h, List.mem_range]

theorem render_some (L : Lib V C) (sc : Scene V X C) (F : Frame V K) (fuel : Nat)
    (st : RenderState C K) (hW : F.frameWidth ≤ L.VFB_MAX_SIZE)
    (hH : F.frameHeight ≤ L.VFB_MAX_SIZE) (col : Nat → Nat → C)
    (lg : Nat → Nat → List (Event V X C))
    (hpix : ∀ x y, x < F.frameWidth → y < F.frameHeight →
      pixelColor L sc F fuel (F.camera.beginFrame st.cam) x y = some (col x y, lg x y)) :
    render L sc F fuel st =
      some ({ cam := F.camera.beginFrame st.cam
              vfb := fun y x =>
                if y < F.frameHeight ∧ x < F.frameWidth then col x y else st.vfb y x },
        Event.beginFrame :: (List.range F.frameHeight).flatMap
          (fun y => (List.range F.frameWidth).flatMap
            (fun x => lg x y ++ [Event.store y x (col x y)]))) :=
  render_of_pixels L sc F fuel st col lg
    (fun x y hx hy => ⟨by omega, by omega, hpix x y hx hy⟩)

theorem rowLoop_inv (L : Lib V C) (sc : Scene V X C) (F : Frame V K) (fuel : Nat) (cam : K)
    (y : Nat) :
    ∀ (xs : List Nat) (vfb : Nat → Nat → C) (r : (Nat → Nat → C) × List (Event V X C)),
      rowLoop L sc F fuel cam y xs vfb = some r →
      ∀ x ∈ xs, y < L.VFB_MAX_SIZE ∧ x < L.VFB_MAX_SIZE ∧
        ∃ q, pixelColor L sc F fuel cam x y = some q := by
  intro xs
  induction xs with
  | nil => intro vfb r _ x hx; simp at hx
  | cons x0 rest ih =>
    intro vfb r h x hx
    simp only [rowLoop, renderPixel] at h
    cases hp : pixelColor L sc F fuel cam x0 y with
    | none => simp [hp] at h
    | some q =>
      rw [hp] at h
      simp only at h
      by_cases hb : y < L.VFB_MAX_SIZE ∧ x0 < L.VFB_MAX_SIZE
      · cases hrest : rowLoop L sc F fuel cam y rest
            (fun y2 x2 => if y2 = y ∧ x2 = x0 then q.1 else vfb y2 x2) with
        | none => simp [storeVfb, hb, hrest] at h
        | some r2 =>
          rcases List.mem_cons.1 hx with rfl | hx
          · exact ⟨hb.1, hb.2, q, hp⟩
          · exact ih _ r2 hrest x hx
      · simp [storeVfb, hb] at h

theorem frameLoop_inv (L : Lib V C) (sc : Scene V X C) (F : Frame V K) (fuel : Nat)
    (cam : K) :
    ∀ (ys : List Nat) (vfb : Nat → Nat → C) (r : (Nat → Nat → C) × List (Event V X C)),
      frameLoop L sc F fuel cam ys vfb = some r →
      ∀ y ∈ ys, ∀ x, x < F.frameWidth → y < L.VFB_MAX_SIZE ∧ x < L.VFB_MAX_SIZE ∧
        ∃ q, pixelColor L sc F fuel cam x y = some q := by
  intro ys
  induction ys with
  | nil => intro vfb r _ y hy; simp at hy
  | cons y0 rest ih =>
    intro vfb r h y hy x hx
    simp only [frameLoop] at h
    cases hrow : rowLoop L sc F fuel cam y0 (List.range F.frameWidth) vfb with
    | none => simp [hrow] at h
    | some r1 =>
      rw [hrow] at h
      simp only at h
      cases hrest : frameLoop L sc F fuel cam rest r1.1 with
      | none => simp [hrest] at h
      | some r2 =>
        rcases List.mem_cons.1 hy with rfl | hy
        · exact rowLoop_inv L sc F fuel cam y _ vfb r1 hrow x (List.mem_range.2 hx)
        · exact ih _ r2 hrest y hy x hx

/-- When `render` returns, every store of the frame fell into `vfb` and every pixel's
samples returned. -/
theorem render_inv (L : Lib V C) (sc : Scene V X C) (F : Frame V K) (fuel : Nat)
    (st : RenderState C K) (r : RenderState C K × List (Event V X C))
    (h : render L sc F fuel st = some r) :
    ∀ x y, x < F.frameWidth → y < F.frameHeight →
      y < L.VFB_MAX_SIZE ∧ x < L.VFB_MAX_SIZE ∧
      ∃ q, pixelColor L sc F fuel (F.camera.beginFrame st.cam) x y = some q := by
  intro x y hx hy
  simp only [render] at h
  cases hf : frameLoop L sc F fuel (F.camera.beginFrame st.cam)
      (List.range F.frameHeight) st.vfb with
  | none => simp [hf] at h
  | some r1 =>
    exact frameLoop_inv L sc F fuel _ _ st.vfb r1 hf y (List.mem_range.2 hy) x hx

theorem raytraceXY_some (L : Lib V C) (sc : Scene V X C) (F : Frame V K) (fuel : Nat)
    (cam : K) (x y : ℚ) (c : C) (l : List (Event V X C))
    (h : raytraceXY L sc F fuel cam x y = some (c, l)) :
    ∃ l2, l = Event.getScreenRay x y :: l2 ∧
      raytrace L sc fuel (F.camera.getScreenRay cam x y) = some (c, l2) := by
  simp only [raytraceXY] at h
  cases hr : raytrace L sc fuel (F.camera.getScreenRay cam x y) with
  | none => simp [hr] at h
  | some r =>
    rw [hr] at h
    simp only [Option.some.injEq, Prod.mk.injEq] at h
    exact ⟨r.2, h.2.symm, by rw [← h.1]⟩

theorem raytraceXY_returns (L : Lib V C) (sc : Scene V X C) (F : Frame V K) (fuel : Nat)
    (cam : K) (x y : ℚ)
    (h : ∃ r, raytrace L sc fuel (F.camera.getScreenRay cam x y) = some r) :
    ∃ r, raytraceXY L sc F fuel cam x y = some r := by
  obtain ⟨r, hr⟩ := h
  exact ⟨(r.1, Event.getScreenRay x y :: r.2), by simp only [raytraceXY, hr]⟩

theorem some_eq_getD {α β : Type} (o : Option (α × β)) (a : α) (b : β)
    (h : ∃ r, o = some r) :
    o = some ((o.map Prod.fst).getD a, (o.map Prod.snd).getD b) := by
  obtain ⟨r, hr⟩ := h
  rw [hr]
  rfl

theorem paintedScene_spawnsDeeper (ps : List (ℚ × ℚ)) (env : Environment ℚ ℚ) :
    Scene.SpawnsDeeper
      ({ nodes := ps.map (fun q => paintedPoint q.1 q.2), env := env } : Scene ℚ Unit ℚ) := by
  intro node hm ray info
  simp only [List.mem_map] at hm
  obtain ⟨q, _, rfl⟩ := hm
  simp [paintedPoint, ShadeProg.ChildDepth]

theorem twoPoints_sample_returns (cam : ℚ × Nat) (x y i : Nat) :
    ∃ r, sampleAt lineLib twoPoints smallFrame 5 cam x y i = some r := by
  apply raytraceXY_returns
  exact raytrace_returns lineLib twoPoints
    (paintedScene_spawnsDeeper [(5, 1), (3, 2)] noEnv) 5 _ (by decide)
    (by simp [smallFrame, lineCamera, lineLib])

/-- C8 (antialiasing averaging). With antialiasing on, a frame that fits into `vfb`, and
the five samples of every pixel returning `col x y i` (with log `lg x y i`) for the offsets
(0,0), (0.6,0), (0.3,0.3), (0,0.6), (0.6,0.6) in that order: each sample is
`raytrace(camera.getScreenRay(x + ox_i, y + oy_i))` on the camera state left by `beginFrame`,
`render` returns, every cell `vfb[y][x]` of the frame is
`((((C0 + C1) + C2) + C3) + C4) / 5`, and the log shows, pixel after pixel, the five samples
once each in that order followed by the store. -/
theorem render_antialiasing (L : Lib V C) (sc : Scene V X C) (F : Frame V K) (fuel : Nat)
    (st : RenderState C K) (haa : F.antialiasing = true)
    (hW : F.frameWidth ≤ L.VFB_MAX_SIZE) (hH : F.frameHeight ≤ L.VFB_MAX_SIZE)
    (col : Nat → Nat → Nat → C) (lg : Nat → Nat → Nat → List (Event V X C))
    (hsamp : ∀ x y i, x < F.frameWidth → y < F.frameHeight → i < 5 →
      raytraceXY L sc F fuel (F.camera.beginFrame st.cam)
        ((x : ℚ) + (offsetAt i).1) ((y : ℚ) + (offsetAt i).2) = some (col x y i, lg x y i)) :
    (List.range 5).map offsetAt
      = [(0, 0), (6 / 10, 0), (3 / 10, 3 / 10), (0, 6 / 10), (6 / 10, 6 / 10)] ∧
    (∀ x y i, x < F.frameWidth → y < F.frameHeight → i < 5 →
      ∃ l, lg x y i
          = Event.getScreenRay ((x : ℚ) + (offsetAt i).1) ((y : ℚ) + (offsetAt i).2) :: l ∧
        raytrace L sc fuel (F.camera.getScreenRay (F.camera.beginFrame st.cam)
          ((x : ℚ) + (offsetAt i).1) ((y : ℚ) + (offsetAt i).2)) = some (col x y i, l)) ∧
    ∃ st2, render L sc F fuel st =
        some (st2, Event.beginFrame :: (List.range F.frameHeight).flatMap
          (fun y => (List.range F.frameWidth).flatMap
            (fun x => (lg x y 0 ++ (lg x y 1 ++ (lg x y 2 ++ (lg x y 3 ++ lg x y 4)))) ++
              [Event.store y x (L.div (L.add (L.add (L.add (L.add
                (col x y 0) (col x y 1)) (col x y 2)) (col x y 3)) (col x y 4)) 5)]))) ∧
      ∀ x y, x < F.frameWidth → y < F.frameHeight →
        st2.vfb y x = L.div (L.add (L.add (L.add (L.add
          (col x y 0) (col x y 1)) (col x y 2)) (col x y 3)) (col x y 4)) 5 := by
  refine ⟨by simp [offsetAt, offsets, List.range, List.range.loop], ?_, ?_⟩
  · intro x y i hx hy hi
    exact raytraceXY_some L sc F fuel _ _ _ _ _ (hsamp x y i hx hy hi)
  · have h := render_some L sc F fuel st hW hH
      (fun x y => L.div (L.add (L.add (L.add (L.add
        (col x y 0) (col x y 1)) (col x y 2)) (col x y 3)) (col x y 4)) 5)
      (fun x y => lg x y 0 ++ (lg x y 1 ++ (lg x y 2 ++ (lg x y 3 ++ lg x y 4))))
      (fun x y hx hy => pixelColor_antialiased L sc F fuel _ x y haa (col x y) (lg x y)
        (fun i hi => hsamp x y i hx hy hi))
    refine ⟨_, h, ?_⟩
    intro x y hx hy
    simp [hx, hy]

theorem render_antialiasing_witness :
    ∃ st2 log, render lineLib twoPoints smallFrame 5 (filledState 0) = some (st2, log) :=
  match (render_antialiasing lineLib twoPoints smallFrame 5 (filledState 0) rfl (by decide)
    (by decide)
    (fun x y i => ((sampleAt lineLib twoPoints smallFrame 5
      (smallFrame.camera.beginFrame (filledState 0).cam) x y i).map Prod.fst).getD 0)
    (fun x y i => ((sampleAt lineLib twoPoints smallFrame 5
      (smallFrame.camera.beginFrame (filledState 0).cam) x y i).map Prod.snd).getD [])
    (fun x y i _ _ _ => some_eq_getD _ 0 [] (twoPoints_sample_returns _ x y i))).2.2 with
  | ⟨st2, h, _⟩ => ⟨st2, _, h⟩

/-! ## The direction of the local ray -/

/-- C9, as stated, fails: the scaling by 2 is invertible and the world direction (1, 0, 0)
has unit length, but the direction handed to the geometry is (1/2, 0, 0), whose squared
length is 1/4. -/
theorem localRay_dir_not_unit :
    (∀ v, (scaleTransform 2).untransformPoint ((scaleTransform 2).transformPoint v) = v) ∧
    (∀ v, (scaleTransform 2).transformPoint ((scaleTransform 2).untransformPoint v) = v) ∧
    (∀ v, (scaleTransform 2).untransformDir ((scaleTransform 2).transformDir v) = v) ∧
    (∀ v, (scaleTransform 2).transformDir ((scaleTransform 2).untransformDir v) = v) ∧
    xAxisRay.dir.lengthSqr = 1 ∧
    ((emptyNode (scaleTransform 2)).localRay xAxisRay).dir = { x := 1 / 2, y := 0, z := 0 } ∧
    ((emptyNode (scaleTransform 2)).localRay xAxisRay).dir.lengthSqr ≠ 1 := by
  refine ⟨?_, ?_, ?_, ?_, ?_, ?_, ?_⟩
  · intro v; cases v; simp [scaleTransform, Vec3.scale]
  · intro v; cases v; simp [scaleTransform, Vec3.scale]
  · intro v; cases v; simp [scaleTransform, Vec3.scale]
  · intro v; cases v; simp [scaleTransform, Vec3.scale]
  · norm_num [xAxisRay, Vec3.lengthSqr]
  · norm_num [Node.localRay, emptyNode, scaleTransform, Vec3.scale, xAxisRay]
  · norm_num [Node.localRay, emptyNode, scaleTransform, Vec3.scale, xAxisRay, Vec3.lengthSqr]

/-- C9, amended. The direction of the local ray handed to the geometry is
`T.untransformDir(ray.dir)`, not renormalised, and its start is
`T.untransformPoint(ray.start)`; so the direction has unit length when `ray.dir` has and
`T.untransformDir` keeps unit directions unit (as a rotation or a translation does). -/
theorem Node.localRay_dir_unit (node : Node V X C) (ray : Ray V) (unit : V → Prop)
    (hT : ∀ v, unit v → unit (node.T.untransformDir v)) (hray : unit ray.dir) :
    (node.localRay ray).dir = node.T.untransformDir ray.dir ∧
    (node.localRay ray).start = node.T.untransformPoint ray.start ∧
    unit (node.localRay ray).dir :=
  ⟨rfl, rfl, hT ray.dir hray⟩

theorem Node.localRay_dir_unit_witness :
    ((emptyNode quarterTurn).localRay xAxisRay).dir
      = (emptyNode quarterTurn).T.untransformDir xAxisRay.dir ∧
    ((emptyNode quarterTurn).localRay xAxisRay).start
      = (emptyNode quarterTurn).T.untransformPoint xAxisRay.start ∧
    ((emptyNode quarterTurn).localRay xAxisRay).dir.lengthSqr = 1 :=
  Node.localRay_dir_unit (emptyNode quarterTurn) xAxisRay (fun v => v.lengthSqr = 1)
    (by
      intro v hv
      simp only [Vec3.lengthSqr] at hv
      simp only [emptyNode, quarterTurn, Vec3.lengthSqr]
      linarith)
    (by norm_num [xAxisRay, Vec3.lengthSqr])

/-! ## What render overwrites -/

theorem twoPoints_pixel (cam : ℚ × Nat) (x y : Nat) :
    ∃ q, pixelColor lineLib twoPoints smallFrame 5 cam x y = some q :=
  ⟨_, pixelColor_antialiased lineLib twoPoints smallFrame 5 cam x y rfl
    (fun i => ((sampleAt lineLib twoPoints smallFrame 5 cam x y i).map Prod.fst).getD 0)
    (fun i => ((sampleAt lineLib twoPoints smallFrame 5 cam x y i).map Prod.snd).getD [])
    (fun i _ => some_eq_getD _ 0 [] (twoPoints_sample_returns cam x y i))⟩

theorem twoPoints_render (c : ℚ) :
    ∃ r, render lineLib twoPoints smallFrame 5 (filledState c) = some r ∧
      ∀ y x, ¬ (y < 1 ∧ x < 2) → r.1.vfb y x = c := by
  refine ⟨_, render_some lineLib twoPoints smallFrame 5 (filledState c) (by decide)
    (by decide)
    (fun x y => ((pixelColor lineLib twoPoints smallFrame 5
      (smallFrame.camera.beginFrame (filledState c).cam) x y).map Prod.fst).getD 0)
    (fun x y => ((pixelColor lineLib twoPoints smallFrame 5
      (smallFrame.camera.beginFrame (filledState c).cam) x y).map Prod.snd).getD [])
    (fun x y _ _ => some_eq_getD _ 0 [] (twoPoints_pixel _ x y)), ?_⟩
  intro y x h
  have h2 : ¬ (y < smallFrame.frameHeight ∧ x < smallFrame.frameWidth) := h
  simp only [h2, if_false]
  rfl

/-- C10, as stated, fails: the same scene, camera state, flag and resolution (two pixels in
one row, in a `vfb` of 4 by 4 cells), started on a `vfb` filled with 0 and on one filled
with 1, leave different values in `vfb[3][3]`: that cell is carried over. -/
theorem render_keeps_cells_outside_frame :
    (filledState 0).cam = (filledState 1).cam ∧
    ∃ r1 r2, render lineLib twoPoints smallFrame 5 (filledState 0) = some r1 ∧
      render lineLib twoPoints smallFrame 5 (filledState 1) = some r2 ∧
      r1.1.vfb 3 3 = 0 ∧ r2.1.vfb 3 3 = 1 ∧ r1.1.vfb 3 3 ≠ r2.1.vfb 3 3 := by
  refine ⟨rfl, ?_⟩
  obtain ⟨r1, h1, k1⟩ := twoPoints_render 0
  obtain ⟨r2, h2, k2⟩ := twoPoints_render 1
  have e1 := k1 3 3 (by omega)
  have e2 := k2 3 3 (by omega)
  refine ⟨r1, r2, h1, h2, e1, e2, ?_⟩
  rw [e1, e2]
  norm_num

/-- C10, amended. `render` overwrites every cell `vfb[y][x]` of the frame
(`x < frameWidth`, `y < frameHeight`) and no other: for a fixed scene, camera state,
environment, flag and resolution, when `render` returns from one `vfb` it returns from any
other, with the same camera state, the same log and the same contents in the cells of the
frame; every cell outside the frame keeps the value it had before. -/
theorem render_overwrites_frame (L : Lib V C) (sc : Scene V X C) (F : Frame V K) (fuel : Nat)
    (st1 st2 : RenderState C K) (hcam : st1.cam = st2.cam)
    (r1 : RenderState C K × List (Event V X C)) (h1 : render L sc F fuel st1 = some r1) :
    ∃ r2, render L sc F fuel st2 = some r2 ∧ r2.1.cam = r1.1.cam ∧ r2.2 = r1.2 ∧
      (∀ x y, x < F.frameWidth → y < F.frameHeight → r2.1.vfb y x = r1.1.vfb y x) ∧
      (∀ x y, ¬ (x < F.frameWidth ∧ y < F.frameHeight) →
        r1.1.vfb y x = st1.vfb y x ∧ r2.1.vfb y x = st2.vfb y x) := by
  have hinv := render_inv L sc F fuel st1 r1 h1
  have hpix1 : ∀ x y, x < F.frameWidth → y < F.frameHeight →
      y < L.VFB_MAX_SIZE ∧ x < L.VFB_MAX_SIZE ∧
      pixelColor L sc F fuel (F.camera.beginFrame st1.cam) x y
        = some (((pixelColor L sc F fuel (F.camera.beginFrame st1.cam) x y).map
            Prod.fst).getD L.black,
          ((pixelColor L sc F fuel (F.camera.beginFrame st1.cam) x y).map
            Prod.snd).getD []) := by
    intro x y hx hy
    obtain ⟨hb1, hb2, hq⟩ := hinv x y hx hy
    exact ⟨hb1, hb2, some_eq_getD _ _ _ hq⟩
  have e1 := render_of_pixels L sc F fuel st1 _ _ hpix1
  have e2 := render_of_pixels L sc F fuel st2 _ _ (by rw [← hcam]; exact hpix1)
  rw [e1] at h1
  have hr1 := (Option.some.inj h1).symm
  refine ⟨_, e2, ?_, ?_, ?_, ?_⟩
  · rw [hr1, hcam]
  · rw [hr1]
  · intro x y hx hy
    rw [hr1]
    simp [hx, hy]
  · intro x y hxy
    have hxy2 : ¬ (y < F.frameHeight ∧ x < F.frameWidth) := fun h => hxy ⟨h.2, h.1⟩
    rw [hr1]
    simp [hxy2]

theorem render_overwrites_frame_witness :
    ∃ r1 r2, render lineLib twoPoints smallFrame 5 (filledState 0) = some r1 ∧
      render lineLib twoPoints smallFrame 5 (filledState 1) = some r2 ∧
      r2.1.cam = r1.1.cam ∧ r2.2 = r1.2 ∧
      (∀ x y, x < smallFrame.frameWidth → y < smallFrame.frameHeight →
        r2.1.vfb y x = r1.1.vfb y x) ∧
      (∀ x y, ¬ (x < smallFrame.frameWidth ∧ y < smallFrame.frameHeight) →
        r1.1.vfb y x = (filledState 0).vfb y x ∧ r2.1.vfb y x = (filledState 1).vfb y x) :=
  match twoPoints_render 0 with
  | ⟨r1, h1, _⟩ =>
    match render_overwrites_frame lineLib twoPoints smallFrame 5 (filledState 0)
      (filledState 1) rfl r1 h1 with
    | ⟨r2, h2, rest⟩ => ⟨r1, r2, h1, h2, rest⟩

/-! ## Single-sample rendering -/

theorem offsetAt_zero : offsetAt 0 = (0, 0) := by
  simp [offsetAt, offsets]

theorem sampleAt_zero (L : Lib V C) (sc : Scene V X C) (F : Frame V K) (fuel : Nat) (cam : K)
    (x y : Nat) :
    sampleAt L sc F fuel cam x y 0 = raytraceXY L sc F fuel cam (x : ℚ) (y : ℚ) := by
  simp only [sampleAt, offsetAt_zero, add_zero]

/-- C11 (single-sample rendering). With antialiasing off, a frame that fits into `vfb`, and
`raytrace(camera.getScreenRay(x, y))` returning `col x y` (with log `lg x y`) on the camera
state left by `beginFrame`: the first offset is (0,0), `render` returns, every cell
`vfb[y][x]` of the frame is `col x y` itself, not divided, and the log shows for each pixel
one `getScreenRay(x, y)`, the log of that one `raytrace` call, and the store. -/
theorem render_single_sample (L : Lib V C) (sc : Scene V X C) (F : Frame V K) (fuel : Nat)
    (st : RenderState C K) (haa : F.antialiasing = false)
    (hW : F.frameWidth ≤ L.VFB_MAX_SIZE) (hH : F.frameHeight ≤ L.VFB_MAX_SIZE)
    (col : Nat → Nat → C) (lg : Nat → Nat → List (Event V X C))
    (hsamp : ∀ x y : Nat, x < F.frameWidth → y < F.frameHeight →
      raytrace L sc fuel (F.camera.getScreenRay (F.camera.beginFrame st.cam) (x : ℚ) (y : ℚ))
        = some (col x y, lg x y)) :
    offsetAt 0 = (0, 0) ∧
    ∃ st2, render L sc F fuel st =
        some (st2, Event.beginFrame :: (List.range F.frameHeight).flatMap
          (fun y => (List.range F.frameWidth).flatMap
            (fun x => (Event.getScreenRay (x : ℚ) (y : ℚ) :: lg x y) ++
              [Event.store y x (col x y)]))) ∧
      ∀ x y, x < F.frameWidth → y < F.frameHeight → st2.vfb y x = col x y := by
  refine ⟨offsetAt_zero, ?_⟩
  have h := render_some L sc F fuel st hW hH col
    (fun x y => Event.getScreenRay (x : ℚ) (y : ℚ) :: lg x y)
    (fun x y hx hy => by
      rw [pixelColor_single L sc F fuel _ x y haa, sampleAt_zero]
      simp only [raytraceXY, hsamp x y hx hy])
  refine ⟨_, h, ?_⟩
  intro x y hx hy
  simp [hx, hy]

theorem twoPoints_raytrace_returns (ray : Ray ℚ) (hray : ray.depth = 0) :
    ∃ r, raytrace lineLib twoPoints 5 ray = some r :=
  raytrace_returns lineLib twoPoints (paintedScene_spawnsDeeper [(5, 1), (3, 2)] noEnv) 5 ray
    (by decide) (by rw [hray]; decide)

theorem render_single_sample_witness :
    ∃ st2 log, render lineLib twoPoints plainFrame 5 (filledState 0) = some (st2, log) :=
  match (render_single_sample lineLib twoPoints plainFrame 5 (filledState 0) rfl (by decide)
    (by decide)
    (fun x y => ((raytrace lineLib twoPoints 5 (plainFrame.camera.getScreenRay
      (plainFrame.camera.beginFrame (filledState 0).cam) (x : ℚ) (y : ℚ))).map Prod.fst).getD 0)
    (fun x y => ((raytrace lineLib twoPoints 5 (plainFrame.camera.getScreenRay
      (plainFrame.camera.beginFrame (filledState 0).cam) (x : ℚ) (y : ℚ))).map Prod.snd).getD [])
    (fun x y _ _ => some_eq_getD _ 0 [] (twoPoints_raytrace_returns _ rfl))).2 with
  | ⟨st2, h, _⟩ => ⟨st2, _, h⟩

/-! ## Node::intersect delegates to the geometry -/

/-- C13 (delegation). The local ray has start `T.untransformPoint(ray.start)`, direction
`T.untransformDir(ray.dir)` and the depth of the world ray; `Node::intersect` returns false
exactly when the geometry reports no hit on that ray; and the geometry is queried on that
ray only: another geometry that answers the same there gives the same `Node::intersect`. -/
theorem Node.intersect_delegates (L : Lib V C) (node : Node V X C) (ray : Ray V) :
    (node.localRay ray).start = node.T.untransformPoint ray.start ∧
    (node.localRay ray).dir = node.T.untransformDir ray.dir ∧
    (node.localRay ray).depth = ray.depth ∧
    ((node.intersect L ray).1 = false ↔ (node.geometry (node.localRay ray)).1 = false) ∧
    (∀ g2 : Ray V → Bool × IntersectionInfo V X,
      g2 (node.localRay ray) = node.geometry (node.localRay ray) →
      Node.intersect L { node with geometry := g2 } ray = node.intersect L ray) := by
  refine ⟨rfl, rfl, rfl, ?_, ?_⟩
  · rw [Node.intersect_fst]
  · intro g2 hg
    have hl : Node.localRay { node with geometry := g2 } ray = node.localRay ray := rfl
    simp only [Node.intersect, hl, hg]

/-! ## Translation -/

theorem drift_local_start :
    driftRay.start - oneTenth = ({ m := 7205759403792793, e := -55 } : Bin) := by
  decide

theorem drift_world_ip :
    ({ m := 3152519739159347, e := -52 } : Bin) + oneTenth
      = { m := 7205759403792793, e := -53 } := by
  decide

theorem drift_world_dist :
    (({ m := 7205759403792793, e := -53 } : Bin) - driftRay.start).abs
      = { m := 9007199254740991, e := -54 } := by
  decide

theorem drift_local_dist :
    (({ m := 3152519739159347, e := -52 } : Bin)
        - ({ m := 7205759403792793, e := -55 } : Bin)).abs
      = { m := 9007199254740992, e := -54 } := by
  decide

theorem drift_hits :
    (driftNode.geometry (driftNode.localRay driftRay)).1 = true := by
  have h : driftNode.localRay driftRay
      = { start := driftRay.start - oneTenth, dir := driftRay.dir, depth := driftRay.depth } :=
    rfl
  rw [h, drift_local_start]
  decide

/-- C14, as stated, fails: in double arithmetic the node translated by `0.1` with its point
at the local position `0.7` is hit by the ray from `0.3`; the local ray starts at
`0.3 - 0.1 = 0.19999999999999998`, the world hit point is `0.7 + 0.1 = 0.7999999999999999`,
the reported distance is `0.49999999999999994`, and the distance from the local ray's start
to the local hit point is `0.5`. -/
theorem translation_distance_rounds :
    driftNode.T = translation oneTenth ∧
    driftNode.localRay driftRay
      = { start := driftRay.start - oneTenth, dir := driftRay.dir, depth := driftRay.depth } ∧
    (driftNode.intersect doubleLib driftRay).1 = true ∧
    (driftNode.intersect doubleLib driftRay).2.dist = Dbl.fin (9007199254740991 / 2 ^ 54) ∧
    doubleLib.distance (driftNode.localRay driftRay).start
        (driftNode.geometry (driftNode.localRay driftRay)).2.ip = Dbl.fin (1 / 2) ∧
    (driftNode.intersect doubleLib driftRay).2.dist
      ≠ doubleLib.distance (driftNode.localRay driftRay).start
          (driftNode.geometry (driftNode.localRay driftRay)).2.ip := by
  have hl : driftNode.localRay driftRay
      = { start := driftRay.start - oneTenth, dir := driftRay.dir, depth := driftRay.depth } :=
    rfl
  have hw : (driftNode.intersect doubleLib driftRay).2.dist
      = Dbl.fin (9007199254740991 / 2 ^ 54) := by
    rw [Node.intersect_snd_of_hit doubleLib driftNode driftRay drift_hits]
    have hip : driftNode.T.transformPoint
        (driftNode.geometry (driftNode.localRay driftRay)).2.ip
          = ({ m := 3152519739159347, e := -52 } : Bin) + oneTenth := rfl
    simp only [hip, drift_world_ip, doubleLib, drift_world_dist]
    norm_num [Bin.toRat]
  have hloc : doubleLib.distance (driftNode.localRay driftRay).start
      (driftNode.geometry (driftNode.localRay driftRay)).2.ip = Dbl.fin (1 / 2) := by
    have hip : (driftNode.geometry (driftNode.localRay driftRay)).2.ip
        = ({ m := 3152519739159347, e := -52 } : Bin) := rfl
    have hs : (driftNode.localRay driftRay).start = driftRay.start - oneTenth := rfl
    simp only [hip, hs, drift_local_start, doubleLib, drift_local_dist]
    norm_num [Bin.toRat]
  refine ⟨rfl, hl, ?_, hw, hloc, ?_⟩
  · rw [Node.intersect_fst]
    exact drift_hits
  · rw [hw, hloc]
    norm_num

/-- C14, amended. For a node whose transform is the translation by `t`: the local ray is the
world ray with start `ray.start - t` and the same direction; `Node::intersect` hits exactly
when the geometry hits that ray; on a hit the world hit point is the local one `+ t`, the
normal is the local one, and the reported distance is `distance(ray.start, local hit + t)`,
measured in world space; that is the distance from the local ray's start to the local hit
point when the arithmetic is exact there: `(ray.start - t) + t` gives back `ray.start` and
`distance` does not change when both points move by `t`. -/
theorem Node.intersect_translation [Add V] [Sub V] (L : Lib V C) (node : Node V X C) (t : V)
    (ray : Ray V) (hT : node.T = translation t) :
    node.localRay ray = { start := ray.start - t, dir := ray.dir, depth := ray.depth } ∧
    ((node.intersect L ray).1 = true ↔
      (node.geometry { start := ray.start - t, dir := ray.dir, depth := ray.depth }).1
        = true) ∧
    ((node.geometry { start := ray.start - t, dir := ray.dir, depth := ray.depth }).1 = true →
      (node.intersect L ray).2.ip
        = (node.geometry { start := ray.start - t, dir := ray.dir, depth := ray.depth }).2.ip
          + t ∧
      (node.intersect L ray).2.norm
        = (node.geometry { start := ray.start - t, dir := ray.dir, depth := ray.depth }).2.norm ∧
      (node.intersect L ray).2.dist
        = L.distance ray.start
          ((node.geometry
            { start := ray.start - t, dir := ray.dir, depth := ray.depth }).2.ip + t) ∧
      (ray.start - t + t = ray.start →
        (∀ a b : V, L.distance (a + t) (b + t) = L.distance a b) →
        (node.intersect L ray).2.dist
          = L.distance (ray.start - t)
            (node.geometry
              { start := ray.start - t, dir := ray.dir, depth := ray.depth }).2.ip)) := by
  have hl : node.localRay ray = { start := ray.start - t, dir := ray.dir, depth := ray.depth } := by
    simp [Node.localRay, hT, translation]
  refine ⟨hl, ?_, ?_⟩
  · rw [Node.intersect_fst, hl]
  · intro hh
    rw [← hl] at hh
    rw [Node.intersect_snd_of_hit L node ray hh, hl]
    simp only [hT, translation]
    refine ⟨trivial, trivial, trivial, ?_⟩
    intro hback hdist
    have h := hdist (ray.start - t)
      (node.geometry { start := ray.start - t, dir := ray.dir, depth := ray.depth }).2.ip
    rw [hback] at h
    exact h

theorem Node.intersect_translation_witness :
    (movedPoint 3 2 2).localRay forwardRay
      = { start := forwardRay.start - 2, dir := forwardRay.dir, depth := forwardRay.depth } ∧
    (((movedPoint 3 2 2).intersect lineLib forwardRay).1 = true ↔
      ((movedPoint 3 2 2).geometry
        { start := forwardRay.start - 2, dir := forwardRay.dir, depth := forwardRay.depth }).1
        = true) ∧
    (((movedPoint 3 2 2).geometry
        { start := forwardRay.start - 2, dir := forwardRay.dir, depth := forwardRay.depth }).1
        = true →
      ((movedPoint 3 2 2).intersect lineLib forwardRay).2.ip
        = ((movedPoint 3 2 2).geometry
          { start := forwardRay.start - 2, dir := forwardRay.dir,
            depth := forwardRay.depth }).2.ip + 2 ∧
      ((movedPoint 3 2 2).intersect lineLib forwardRay).2.norm
        = ((movedPoint 3 2 2).geometry
          { start := forwardRay.start - 2, dir := forwardRay.dir,
            depth := forwardRay.depth }).2.norm ∧
      ((movedPoint 3 2 2).intersect lineLib forwardRay).2.dist
        = lineLib.distance forwardRay.start
          (((movedPoint 3 2 2).geometry
            { start := forwardRay.start - 2, dir := forwardRay.dir,
              depth := forwardRay.depth }).2.ip + 2) ∧
      (forwardRay.start - 2 + 2 = forwardRay.start →
        (∀ a b : ℚ, lineLib.distance (a + 2) (b + 2) = lineLib.distance a b) →
        ((movedPoint 3 2 2).intersect lineLib forwardRay).2.dist
          = lineLib.distance (forwardRay.start - 2)
            ((movedPoint 3 2 2).geometry
              { start := forwardRay.start - 2, dir := forwardRay.dir,
                depth := forwardRay.depth }).2.ip)) :=
  Node.intersect_translation lineLib (movedPoint 3 2 2) 2 forwardRay rfl

/-! ## Hits at or beyond the sentinel -/

/-- C15, as stated, fails: the point at ten to the 100th is hit by `forwardRay`, at that
distance, which is not below the sentinel; `raytrace` then returns the colour 7 of the
environment, not the paint 5, and the log has the environment lookup and no `shade`. -/
theorem raytrace_far_hit_falls_back :
    forwardRay.depth ≤ lineLib.MAX_TRACE_DEPTH ∧
    (paintedPoint (10 ^ 100) 5).hits lineLib forwardRay = true ∧
    ((paintedPoint (10 ^ 100) 5).info lineLib forwardRay).dist = Dbl.fin (10 ^ 100) ∧
    raytrace lineLib farPoint 1 forwardRay
      = some (7, [Event.raytrace forwardRay, Event.intersect 0 forwardRay,
          Event.getEnvironment 1]) := by
  have hh : (paintedPoint (10 ^ 100) 5).hits lineLib forwardRay = true := by
    simp [paintedPoint_hits, forwardRay]
  have hd : ((paintedPoint (10 ^ 100) 5).info lineLib forwardRay).dist
      = Dbl.fin (10 ^ 100) := by
    rw [paintedPoint_dist _ _ _ hh]
    norm_num [forwardRay]
  refine ⟨by decide, hh, hd, ?_⟩
  rw [raytrace_fallback lineLib farPoint 0 forwardRay (by decide)]
  · simp [farPoint, greyEnv, intersectLog, forwardRay, List.range, List.range.loop]
  · intro m hm
    simp only [farPoint, List.mem_singleton] at hm
    subst hm
    rw [hd]
    norm_num [Dbl.lt, sentinel]

/-- C15, amended. For a ray within the depth limit: when some node hits below the sentinel,
`raytrace` takes the shader exit of a hitting node; when no node hits below the sentinel
(no hit at all, or only hits at the sentinel or beyond, at infinity or at NaN), it takes the
environment / black exit. -/
theorem raytrace_hit_below_sentinel (L : Lib V C) (sc : Scene V X C) (fuel : Nat)
    (ray : Ray V) (hdepth : ray.depth ≤ L.MAX_TRACE_DEPTH) :
    ((∃ m ∈ sc.nodes, m.hits L ray = true ∧ (m.info L ray).dist.lt sentinel = true) →
      ∃ k node, sc.nodes[k]? = some node ∧ node.hits L ray = true ∧
        ShadesWith L sc fuel ray k node) ∧
    ((∀ m ∈ sc.nodes, ¬ (m.hits L ray = true ∧ (m.info L ray).dist.lt sentinel = true)) →
      raytrace L sc (fuel + 1) ray =
        if sc.env.loaded then
          some (sc.env.getEnvironment ray.dir,
            Event.raytrace ray ::
              (intersectLog ray sc.nodes.length ++ [Event.getEnvironment ray.dir]))
        else some (L.black, Event.raytrace ray :: intersectLog ray sc.nodes.length)) := by
  constructor
  · intro hhit
    rcases closestLoop_spec L ray sc.nodes 0 { dist := sentinel, sel := none } with
      ⟨_, hnone⟩ | ⟨k, node, hk, hf, hh, hlt, _, _⟩
    · obtain ⟨m, hm, hmh, hml⟩ := hhit
      exact absurd ⟨hmh, hml⟩ (hnone m hm)
    · rw [Nat.zero_add] at hf
      exact ⟨k, node, hk, hh, raytrace_selected L sc fuel ray hdepth k node hf hlt⟩
  · intro hnone
    exact raytrace_fallback L sc fuel ray hdepth hnone

theorem raytrace_hit_below_sentinel_witness :
    ((∃ m ∈ farPoint.nodes, m.hits lineLib forwardRay = true ∧
        (m.info lineLib forwardRay).dist.lt sentinel = true) →
      ∃ k node, farPoint.nodes[k]? = some node ∧ node.hits lineLib forwardRay = true ∧
        ShadesWith lineLib farPoint 0 forwardRay k node) ∧
    ((∀ m ∈ farPoint.nodes, ¬ (m.hits lineLib forwardRay = true ∧
        (m.info lineLib forwardRay).dist.lt sentinel = true)) →
      raytrace lineLib farPoint (0 + 1) forwardRay =
        if farPoint.env.loaded then
          some (farPoint.env.getEnvironment forwardRay.dir,
            Event.raytrace forwardRay ::
              (intersectLog forwardRay farPoint.nodes.length ++
                [Event.getEnvironment forwardRay.dir]))
        else some (lineLib.black,
          Event.raytrace forwardRay :: intersectLog forwardRay farPoint.nodes.length)) :=
  raytrace_hit_below_sentinel lineLib farPoint 0 forwardRay (by decide)

/-! ## The info of a node that does not hit -/

theorem Node.intersect_sameHits (L : Lib V C) (n1 n2 : Node V X C) (h : n1.SameHits n2)
    (ray : Ray V) :
    (n1.intersect L ray).1 = (n2.intersect L ray).1 ∧
    ((n1.intersect L ray).1 = true → (n1.intersect L ray).2 = (n2.intersect L ray).2) := by
  obtain ⟨_, hT, hg⟩ := h
  have hl : n2.localRay ray = n1.localRay ray := by simp [Node.localRay, hT]
  obtain ⟨hflag, hinfo⟩ := hg (n1.localRay ray)
  constructor
  · rw [Node.intersect_fst, Node.intersect_fst, hl, hflag]
  · intro hh
    rw [Node.intersect_fst] at hh
    have hh2 : (n2.geometry (n2.localRay ray)).1 = true := by rw [hl, ← hflag]; exact hh
    rw [Node.intersect_snd_of_hit L n1 ray hh, Node.intersect_snd_of_hit L n2 ray hh2, hl,
      ← hinfo hh, hT]

theorem visibleLoop_sameHits (L : Lib V C) (ray : Ray V) (maxDist : Dbl)
    (ns1 ns2 : List (Node V X C)) (h : List.Forall₂ Node.SameHits ns1 ns2) :
    ∀ i, visibleLoop L ray maxDist i ns1 = visibleLoop L ray maxDist i ns2 := by
  induction h with
  | nil => intro i; rfl
  | @cons n1 n2 l1 l2 hn _ ih =>
    intro i
    obtain ⟨hflag, hinfo⟩ := Node.intersect_sameHits L n1 n2 hn ray
    simp only [visibleLoop, ih (i + 1)]
    cases hc : (n1.intersect L ray).1 with
    | false =>
      rw [hc] at hflag
      simp [← hflag]
    | true =>
      rw [hc] at hflag
      rw [← hflag, ← hinfo hc]

theorem closestStep_sameHits (L : Lib V C) (ray : Ray V) (n1 n2 : Node V X C)
    (hn : n1.SameHits n2) (i : Nat) (st1 st2 : Closest V X C) (hd : st1.dist = st2.dist)
    (hs : st1.sel.map (fun q => (q.1, q.2.1.shader, q.2.2))
      = st2.sel.map (fun q => (q.1, q.2.1.shader, q.2.2))) :
    (closestStep L ray st1 i n1).dist = (closestStep L ray st2 i n2).dist ∧
    (closestStep L ray st1 i n1).sel.map (fun q => (q.1, q.2.1.shader, q.2.2))
      = (closestStep L ray st2 i n2).sel.map (fun q => (q.1, q.2.1.shader, q.2.2)) := by
  obtain ⟨hflag, hinfo⟩ := Node.intersect_sameHits L n1 n2 hn ray
  simp only [closestStep]
  cases hc : (n1.intersect L ray).1 with
  | false =>
    rw [hc] at hflag
    simp [← hflag, hd, hs]
  | true =>
    rw [hc] at hflag
    rw [← hflag, ← hinfo hc, hd]
    by_cases hl : (n1.intersect L ray).2.dist.lt st2.dist = true
    · simp [hl, hn.1]
    · simp [hl, hd, hs]

theorem closestLoop_sameHits (L : Lib V C) (ray : Ray V)
    (ns1 ns2 : List (Node V X C)) (h : List.Forall₂ Node.SameHits ns1 ns2) :
    ∀ (i : Nat) (st1 st2 : Closest V X C),
      st1.dist = st2.dist →
      st1.sel.map (fun q => (q.1, q.2.1.shader, q.2.2))
        = st2.sel.map (fun q => (q.1, q.2.1.shader, q.2.2)) →
      (closestLoop L ray i ns1 st1).1.dist = (closestLoop L ray i ns2 st2).1.dist ∧
      (closestLoop L ray i ns1 st1).1.sel.map (fun q => (q.1, q.2.1.shader, q.2.2))
        = (closestLoop L ray i ns2 st2).1.sel.map (fun q => (q.1, q.2.1.shader, q.2.2)) := by
  induction h with
  | nil => intro i st1 st2 hd hs; exact ⟨hd, hs⟩
  | @cons n1 n2 l1 l2 hn _ ih =>
    intro i st1 st2 hd hs
    obtain ⟨hd2, hs2⟩ := closestStep_sameHits L ray n1 n2 hn i st1 st2 hd hs
    simp only [closestLoop]
    exact ih (i + 1) _ _ hd2 hs2

theorem runShade_congr (L : Lib V C) (sc1 sc2 : Scene V X C)
    (cb : Ray V → Option (C × List (Event V X C)))
    (hvis : ∀ a b, visible L sc1 a b = visible L sc2 a b) :
    ∀ p : ShadeProg V C, runShade L sc1 cb p = runShade L sc2 cb p := by
  intro p
  induction p with
  | done c => rfl
  | trace r k ih =>
    simp only [runShade]
    cases cb r with
    | none => rfl
    | some x => simp only [ih]
  | visible a b k ih =>
    simp only [runShade, hvis, ih]

theorem visible_sameHits (L : Lib V C) (sc1 sc2 : Scene V X C)
    (hn : List.Forall₂ Node.SameHits sc1.nodes sc2.nodes) (a b : V) :
    visible L sc1 a b = visible L sc2 a b :=
  visibleLoop_sameHits L _ _ _ _ hn 0

theorem raytrace_sameHits (L : Lib V C) (sc1 sc2 : Scene V X C)
    (hn : List.Forall₂ Node.SameHits sc1.nodes sc2.nodes) (henv : sc1.env = sc2.env) :
    ∀ (fuel : Nat) (ray : Ray V), raytrace L sc1 fuel ray = raytrace L sc2 fuel ray := by
  intro fuel
  induction fuel with
  | zero => intro ray; rfl
  | succ n ih =>
    intro ray
    have hcb : raytrace L sc1 n = raytrace L sc2 n := funext ih
    have hlen : sc1.nodes.length = sc2.nodes.length := hn.length_eq
    obtain ⟨hd, hs⟩ := closestLoop_sameHits L ray _ _ hn 0
      { dist := sentinel, sel := none } { dist := sentinel, sel := none } rfl rfl
    simp only [raytrace, closestLoop_log_zero, hlen, ← hd, henv]
    split
    · rfl
    · split
      · rfl
      · cases h1 : (closestLoop L ray 0 sc1.nodes { dist := sentinel, sel := none }).1.sel with
        | none =>
          rw [h1] at hs
          cases h2 : (closestLoop L ray 0 sc2.nodes { dist := sentinel, sel := none }).1.sel with
          | none => rfl
          | some q2 => rw [h2] at hs; simp at hs
        | some q1 =>
          rw [h1] at hs
          cases h2 : (closestLoop L ray 0 sc2.nodes { dist := sentinel, sel := none }).1.sel with
          | none => rw [h2] at hs; simp at hs
          | some q2 =>
            rw [h2] at hs
            simp only [Option.map_some', Option.some.injEq, Prod.mk.injEq] at hs
            obtain ⟨hi, hsh, hinfo⟩ := hs
            simp only [hi, hsh, hinfo, hcb,
              runShade_congr L sc1 sc2 _ (visible_sameHits L sc1 sc2 hn)]

/-- C18 (hit validity before distance). Two scenes whose nodes differ at most in what their
geometries leave in `info` when they report no hit give the same `visible` and the same
`raytrace`, result and log, for all arguments. -/
theorem raytrace_visible_ignore_miss_info (L : Lib V C) (sc1 sc2 : Scene V X C)
    (hn : List.Forall₂ Node.SameHits sc1.nodes sc2.nodes) (henv : sc1.env = sc2.env) :
    (∀ a b, visible L sc1 a b = visible L sc2 a b) ∧
    (∀ fuel ray, raytrace L sc1 fuel ray = raytrace L sc2 fuel ray) :=
  ⟨visible_sameHits L sc1 sc2 hn, raytrace_sameHits L sc1 sc2 hn henv⟩

theorem raytrace_visible_ignore_miss_info_witness :
    (∀ a b, visible lineLib pointBehind a b = visible lineLib junkBehind a b) ∧
    (∀ fuel ray, raytrace lineLib pointBehind fuel ray = raytrace lineLib junkBehind fuel ray) :=
  raytrace_visible_ignore_miss_info lineLib pointBehind junkBehind
    (List.Forall₂.cons
      ⟨rfl, rfl, fun ray => by
        cases h : (pointGeometry (-2) ray).1 <;> simp [paintedPoint, junkPoint, h]⟩
      List.Forall₂.nil)
    rfl

/-! ## The order of the nodes -/

theorem visible_perm (L : Lib V C) (sc1 sc2 : Scene V X C)
    (hperm : sc1.nodes.Perm sc2.nodes) (a b : V) :
    (visible L sc1 a b).1 = (visible L sc2 a b).1 := by
  have h1 := visibleLoop_false_iff L (visibleRay L a b) (L.distance a b) sc1.nodes 0
  have h2 := visibleLoop_false_iff L (visibleRay L a b) (L.distance a b) sc2.nodes 0
  have h : (visible L sc1 a b).1 = false ↔ (visible L sc2 a b).1 = false := by
    simp only [visible]
    rw [h1, h2]
    constructor
    · rintro ⟨m, hm, hh⟩
      exact ⟨m, hperm.mem_iff.1 hm, hh⟩
    · rintro ⟨m, hm, hh⟩
      exact ⟨m, hperm.mem_iff.2 hm, hh⟩
  cases h3 : (visible L sc1 a b).1 <;> cases h4 : (visible L sc2 a b).1 <;> simp_all

theorem Attains.perm (L : Lib V C) (ns1 ns2 : List (Node V X C)) (hperm : ns1.Perm ns2)
    (ray : Ray V) (node : Node V X C) (h : Attains L ns1 ray node) :
    Attains L ns2 ray node :=
  ⟨hperm.mem_iff.1 h.1, h.2.1, h.2.2.1, fun m hm => h.2.2.2 m (hperm.mem_iff.2 hm)⟩

/-- Within the depth limit: no node hits below the sentinel and `raytrace` leaves by the
environment / black exit, or it leaves by the shader exit of a node that attains the
minimal hit distance. -/
theorem raytrace_cases_attains (L : Lib V C) (sc : Scene V X C) (ray : Ray V)
    (hdepth : ray.depth ≤ L.MAX_TRACE_DEPTH) :
    ((∀ m ∈ sc.nodes, ¬ (m.hits L ray = true ∧ (m.info L ray).dist.lt sentinel = true)) ∧
      ∀ n, raytrace L sc (n + 1) ray =
        if sc.env.loaded then
          some (sc.env.getEnvironment ray.dir,
            Event.raytrace ray ::
              (intersectLog ray sc.nodes.length ++ [Event.getEnvironment ray.dir]))
        else some (L.black, Event.raytrace ray :: intersectLog ray sc.nodes.length)) ∨
    ∃ k node, Attains L sc.nodes ray node ∧ ∀ n, ShadesWith L sc n ray k node := by
  rcases closestLoop_spec L ray sc.nodes 0 { dist := sentinel, sel := none } with
    ⟨_, hnone⟩ | ⟨k, node, hk, hf, hh, hlt, hmin, _⟩
  · left
    exact ⟨hnone, fun n => raytrace_fallback L sc n ray hdepth hnone⟩
  · right
    rw [Nat.zero_add] at hf
    exact ⟨k, node, ⟨List.getElem?_mem hk, hh, hlt, hmin⟩,
      fun n => raytrace_selected L sc n ray hdepth k node hf hlt⟩

theorem runShade_perm (L : Lib V C) (sc1 sc2 : Scene V X C)
    (cb1 cb2 : Ray V → Option (C × List (Event V X C))) (P : Ray V → Prop)
    (hvis : ∀ a b, (visible L sc1 a b).1 = (visible L sc2 a b).1)
    (hcb : ∀ ray c log, cb1 ray = some (c, log) →
      (∀ r, Event.raytrace r ∈ log → P r) → ∃ log2, cb2 ray = some (c, log2)) :
    ∀ (p : ShadeProg V C) (c : C) (l : List (Event V X C)),
      runShade L sc1 cb1 p = some (c, l) → (∀ r, Event.raytrace r ∈ l → P r) →
      ∃ l2, runShade L sc2 cb2 p = some (c, l2) := by
  intro p
  induction p with
  | done c0 =>
    intro c l h _
    simp only [runShade, Option.some.injEq, Prod.mk.injEq] at h
    exact ⟨[], by simp only [runShade, h.1]⟩
  | trace r k ih =>
    intro c l h hP
    simp only [runShade] at h
    cases hr : cb1 r with
    | none => simp [hr] at h
    | some x =>
      rw [hr] at h
      simp only at h
      cases hk : runShade L sc1 cb1 (k x.1) with
      | none => simp [hk] at h
      | some z =>
        rw [hk] at h
        simp only [Option.some.injEq, Prod.mk.injEq] at h
        obtain ⟨hc, hl⟩ := h
        have hP1 : ∀ q, Event.raytrace q ∈ x.2 → P q := fun q hq =>
          hP q (by rw [← hl]; exact List.mem_append_left _ hq)
        have hP2 : ∀ q, Event.raytrace q ∈ z.2 → P q := fun q hq =>
          hP q (by rw [← hl]; exact List.mem_append_right _ hq)
        obtain ⟨log2, h2⟩ := hcb r x.1 x.2 hr hP1
        obtain ⟨l2, h3⟩ := ih x.1 z.1 z.2 hk hP2
        exact ⟨log2 ++ l2, by simp only [runShade, h2, h3, hc]⟩
  | visible a b k ih =>
    intro c l h hP
    simp only [runShade] at h
    cases hk : runShade L sc1 cb1 (k (visible L sc1 a b).1) with
    | none => simp [hk] at h
    | some z =>
      rw [hk] at h
      simp only [Option.some.injEq, Prod.mk.injEq] at h
      obtain ⟨hc, hl⟩ := h
      have hP2 : ∀ q, Event.raytrace q ∈ z.2 → P q := fun q hq =>
        hP q (by rw [← hl]; exact List.mem_append_right _ hq)
      obtain ⟨l2, h3⟩ := ih _ z.1 z.2 hk hP2
      rw [hvis] at h3
      exact ⟨(visible L sc2 a b).2 ++ l2, by simp only [runShade, h3, hc]⟩

theorem raytrace_perm_colour (L : Lib V C) (sc1 sc2 : Scene V X C)
    (hperm : sc1.nodes.Perm sc2.nodes) (henv : sc1.env = sc2.env) :
    ∀ (fuel : Nat) (ray : Ray V) (c : C) (log : List (Event V X C)),
      raytrace L sc1 fuel ray = some (c, log) →
      (∀ r, Event.raytrace r ∈ log → TieFree L sc1.nodes r) →
      ∃ log2, raytrace L sc2 fuel ray = some (c, log2) := by
  intro fuel
  induction fuel with
  | zero => intro ray c log h; simp [raytrace] at h
  | succ n ih =>
    intro ray c log h htf
    by_cases hd : ray.depth > L.MAX_TRACE_DEPTH
    · rw [raytrace_beyond_limit L sc1 n ray hd] at h
      simp only [Option.some.injEq, Prod.mk.injEq] at h
      exact ⟨_, by rw [raytrace_beyond_limit L sc2 n ray hd, h.1]⟩
    · have hdepth : ray.depth ≤ L.MAX_TRACE_DEPTH := by omega
      rcases raytrace_cases_attains L sc1 ray hdepth with
        ⟨hnone, hfb⟩ | ⟨k1, node1, hatt1, hs1⟩
      · have hnone2 : ∀ m ∈ sc2.nodes,
            ¬ (m.hits L ray = true ∧ (m.info L ray).dist.lt sentinel = true) :=
          fun m hm => hnone m (hperm.mem_iff.2 hm)
        rw [hfb n] at h
        rw [raytrace_fallback L sc2 n ray hdepth hnone2, ← henv]
        by_cases hl : sc1.env.loaded = true
        · rw [if_pos hl] at h ⊢
          simp only [Option.some.injEq, Prod.mk.injEq] at h
          exact ⟨_, by rw [h.1]⟩
        · rw [if_neg hl] at h ⊢
          simp only [Option.some.injEq, Prod.mk.injEq] at h
          exact ⟨_, by rw [h.1]⟩
      · rcases raytrace_cases_attains L sc2 ray hdepth with
          ⟨hnone2, _⟩ | ⟨k2, node2, hatt2, hs2⟩
        · exact absurd ⟨hatt1.2.1, hatt1.2.2.1⟩ (hnone2 node1 (hperm.mem_iff.1 hatt1.1))
        · have h1 := hs1 n
          rw [ShadesWith, h] at h1
          cases hrun : runShade L sc1 (raytrace L sc1 n)
              (node1.shader ray (node1.info L ray)) with
          | none => simp [hrun] at h1
          | some z =>
            rw [hrun] at h1
            simp only [Option.map_some', Option.some.injEq, Prod.mk.injEq] at h1
            obtain ⟨hc, hlog⟩ := h1
            have hray : TieFree L sc1.nodes ray :=
              htf ray (by rw [hlog]; exact List.mem_cons_self _ _)
            have hnode : node1 = node2 :=
              hray node1 node2 hatt1 (Attains.perm L _ _ hperm.symm ray node2 hatt2)
            have hPz : ∀ r, Event.raytrace r ∈ z.2 → TieFree L sc1.nodes r := fun r hr =>
              htf r (by
                rw [hlog]
                exact List.mem_cons_of_mem _
                  (List.mem_append_right _ (List.mem_cons_of_mem _ hr)))
            obtain ⟨l2, h2⟩ := runShade_perm L sc1 sc2 (raytrace L sc1 n) (raytrace L sc2 n)
              (TieFree L sc1.nodes) (visible_perm L sc1 sc2 hperm) ih _ z.1 z.2 hrun hPz
            have h3 := hs2 n
            rw [ShadesWith, ← hnode, h2] at h3
            exact ⟨_, by rw [h3, hc]; rfl⟩

theorem mirrorTie_colour :
    (raytrace lineLib mirrorTie 2 forwardRay).map Prod.fst = some 1 := by
  norm_num [raytrace, closestLoop, closestStep, Node.intersect, Node.localRay, mirrorTie,
    mirrorPoint, paintedPoint, pointGeometry, idTransform, runShade, lineLib, forwardRay,
    sentinel, Dbl.lt, Dbl.ge, noEnv]

theorem mirrorTieSwapped_colour :
    (raytrace lineLib mirrorTieSwapped 2 forwardRay).map Prod.fst = some 2 := by
  norm_num [raytrace, closestLoop, closestStep, Node.intersect, Node.localRay,
    mirrorTieSwapped, mirrorPoint, paintedPoint, pointGeometry, idTransform, runShade,
    lineLib, forwardRay, sentinel, Dbl.lt, Dbl.ge, noEnv]

/-- C12, as stated, fails: `forwardRay` hits one node only, the mirror at index 0, so its
minimal hit distance is attained by one node; the reflected ray hits the two painted points
at the same distance, and the colour of `forwardRay` is 1 in one order of these two nodes
and 2 in the other. -/
theorem raytrace_order_matters_below :
    mirrorTie.nodes.Perm mirrorTieSwapped.nodes ∧ mirrorTie.env = mirrorTieSwapped.env ∧
    (∀ k m, mirrorTie.nodes[k]? = some m → m.hits lineLib forwardRay = true → k = 0) ∧
    (raytrace lineLib mirrorTie 2 forwardRay).map Prod.fst = some 1 ∧
    (raytrace lineLib mirrorTieSwapped 2 forwardRay).map Prod.fst = some 2 := by
  refine ⟨List.Perm.cons _ (List.Perm.swap _ _ _), rfl, ?_, ?_, ?_⟩
  · intro k m hk hm
    match k with
    | 0 => rfl
    | 1 =>
      simp only [mirrorTie, List.getElem?_cons_succ, List.getElem?_cons_zero,
        Option.some.injEq] at hk
      subst hk
      norm_num [paintedPoint_hits, forwardRay] at hm
    | 2 =>
      simp only [mirrorTie, List.getElem?_cons_succ, List.getElem?_cons_zero,
        Option.some.injEq] at hk
      subst hk
      norm_num [paintedPoint_hits, forwardRay] at hm
    | j + 3 => simp [mirrorTie] at hk
  · exact mirrorTie_colour
  · exact mirrorTieSwapped_colour

/-- C12, amended. For every permutation of the node sequence: `visible(a, b)` is the same
boolean for all `a`, `b`; and when `raytrace(ray)` returns a colour and, for `ray` and for
every ray handed to `raytrace` while it is evaluated, the minimal hit distance is attained by
at most one node, then `raytrace(ray)` on the permuted sequence returns the same colour. -/
theorem raytrace_visible_perm (L : Lib V C) (sc1 sc2 : Scene V X C)
    (hperm : sc1.nodes.Perm sc2.nodes) (henv : sc1.env = sc2.env) :
    (∀ a b, (visible L sc1 a b).1 = (visible L sc2 a b).1) ∧
    (∀ (fuel : Nat) (ray : Ray V) (c : C) (log : List (Event V X C)),
      raytrace L sc1 fuel ray = some (c, log) →
      (∀ r, Event.raytrace r ∈ log → TieFree L sc1.nodes r) →
      ∃ log2, raytrace L sc2 fuel ray = some (c, log2)) :=
  ⟨visible_perm L sc1 sc2 hperm, raytrace_perm_colour L sc1 sc2 hperm henv⟩

theorem raytrace_visible_perm_witness :
    (∀ a b, (visible lineLib mirrorTie a b).1 = (visible lineLib mirrorTieSwapped a b).1) ∧
    (∀ (fuel : Nat) (ray : Ray ℚ) (c : ℚ) (log : List (Event ℚ Unit ℚ)),
      raytrace lineLib mirrorTie fuel ray = some (c, log) →
      (∀ r, Event.raytrace r ∈ log → TieFree lineLib mirrorTie.nodes r) →
      ∃ log2, raytrace lineLib mirrorTieSwapped fuel ray = some (c, log2)) :=
  raytrace_visible_perm lineLib mirrorTie mirrorTieSwapped
    (List.Perm.cons _ (List.Perm.swap _ _ _)) rfl

/-! ## The order of the pixels -/

theorem mem_rowMajor (F : Frame V K) (y x : Nat) :
    (y, x) ∈ rowMajor F ↔ y < F.frameHeight ∧ x < F.frameWidth := by
  simp only [rowMajor, List.mem_flatMap, List.mem_range, List.mem_map, Prod.mk.injEq]
  constructor
  · rintro ⟨y2, hy, x2, hx, rfl, rfl⟩
    exact ⟨hy, hx⟩
  · rintro ⟨hy, hx⟩
    exact ⟨y, hy, x, hx, rfl, rfl⟩

theorem pixelLoop_append (L : Lib V C) (sc : Scene V X C) (F : Frame V K) (fuel : Nat)
    (cam : K) :
    ∀ (ps qs : List (Nat × Nat)) (vfb : Nat → Nat → C),
      pixelLoop L sc F fuel cam (ps ++ qs) vfb =
        match pixelLoop L sc F fuel cam ps vfb with
        | none => none
        | some (vfb2, l) =>
          match pixelLoop L sc F fuel cam qs vfb2 with
          | none => none
          | some (vfb3, l3) => some (vfb3, l ++ l3) := by
  intro ps
  induction ps with
  | nil =>
    intro qs vfb
    simp only [List.nil_append, pixelLoop]
    cases pixelLoop L sc F fuel cam qs vfb with
    | none => rfl
    | some r => simp
  | cons q rest ih =>
    intro qs vfb
    rw [List.cons_append]
    simp only [pixelLoop]
    cases renderPixel L sc F fuel cam q.1 q.2 vfb with
    | none => rfl
    | some r1 =>
      simp only [ih]
      cases pixelLoop L sc F fuel cam rest r1.1 with
      | none => rfl
      | some r2 =>
        simp only
        cases pixelLoop L sc F fuel cam qs r2.1 with
        | none => rfl
        | some r3 => simp [List.append_assoc]

theorem rowLoop_eq_pixelLoop (L : Lib V C) (sc : Scene V X C) (F : Frame V K) (fuel : Nat)
    (cam : K) (y : Nat) :
    ∀ (xs : List Nat) (vfb : Nat → Nat → C),
      rowLoop L sc F fuel cam y xs vfb
        = pixelLoop L sc F fuel cam (xs.map (fun x => (y, x))) vfb := by
  intro xs
  induction xs with
  | nil => intro vfb; rfl
  | cons x rest ih =>
    intro vfb
    simp only [rowLoop, List.map_cons, pixelLoop, ih]

theorem frameLoop_eq_pixelLoop (L : Lib V C) (sc : Scene V X C) (F : Frame V K) (fuel : Nat)
    (cam : K) :
    ∀ (ys : List Nat) (vfb : Nat → Nat → C),
      frameLoop L sc F fuel cam ys vfb
        = pixelLoop L sc F fuel cam
            (ys.flatMap (fun y => (List.range F.frameWidth).map (fun x => (y, x)))) vfb := by
  intro ys
  induction ys with
  | nil => intro vfb; rfl
  | cons y rest ih =>
    intro vfb
    simp only [frameLoop, List.flatMap_cons, pixelLoop_append, rowLoop_eq_pixelLoop, ih]

/-- The row-major order gives `render` itself. -/
theorem renderInOrder_rowMajor (L : Lib V C) (sc : Scene V X C) (F : Frame V K) (fuel : Nat)
    (st : RenderState C K) :
    renderInOrder L sc F fuel (rowMajor F) st = render L sc F fuel st := by
  simp only [renderInOrder, render, rowMajor, frameLoop_eq_pixelLoop]

theorem pixelLoop_some (L : Lib V C) (sc : Scene V X C) (F : Frame V K) (fuel : Nat)
    (cam : K) (col : Nat → Nat → C) (lg : Nat → Nat → List (Event V X C)) :
    ∀ (ps : List (Nat × Nat)) (vfb : Nat → Nat → C),
      (∀ q ∈ ps, q.1 < L.VFB_MAX_SIZE ∧ q.2 < L.VFB_MAX_SIZE ∧
        pixelColor L sc F fuel cam q.2 q.1 = some (col q.2 q.1, lg q.2 q.1)) →
      pixelLoop L sc F fuel cam ps vfb
        = some (fun y2 x2 => if (y2, x2) ∈ ps then col x2 y2 else vfb y2 x2,
            ps.flatMap (fun q => lg q.2 q.1 ++ [Event.store q.1 q.2 (col q.2 q.1)])) := by
  intro ps
  induction ps with
  | nil => intro vfb _; simp [pixelLoop]
  | cons q rest ih =>
    intro vfb h
    obtain ⟨hy, hx, hp⟩ := h q (List.mem_cons_self _ _)
    have hst : storeVfb L vfb q.1 q.2 (col q.2 q.1)
        = some (fun y2 x2 => if y2 = q.1 ∧ x2 = q.2 then col q.2 q.1 else vfb y2 x2) := by
      simp [storeVfb, hy, hx]
    simp only [pixelLoop, renderPixel, hp, hst,
      ih _ (fun j hj => h j (List.mem_cons_of_mem _ hj)), List.flatMap_cons]
    congr 2
    funext y2 x2
    by_cases hq : (y2, x2) = q
    · subst hq
      by_cases hm : (y2, x2) ∈ rest
      · simp [hm]
      · simp [hm]
    · have hq2 : ¬ (y2 = q.1 ∧ x2 = q.2) := fun hc => hq (Prod.ext hc.1 hc.2)
      simp [hq, hq2]

theorem pixelLoop_inv (L : Lib V C) (sc : Scene V X C) (F : Frame V K) (fuel : Nat)
    (cam : K) :
    ∀ (ps : List (Nat × Nat)) (vfb : Nat → Nat → C)
      (r : (Nat → Nat → C) × List (Event V X C)),
      pixelLoop L sc F fuel cam ps vfb = some r →
      ∀ q ∈ ps, q.1 < L.VFB_MAX_SIZE ∧ q.2 < L.VFB_MAX_SIZE ∧
        ∃ c, pixelColor L sc F fuel cam q.2 q.1 = some c := by
  intro ps
  induction ps with
  | nil => intro vfb r _ q hq; simp at hq
  | cons q0 rest ih =>
    intro vfb r h q hq
    simp only [pixelLoop, renderPixel] at h
    cases hp : pixelColor L sc F fuel cam q0.2 q0.1 with
    | none => simp [hp] at h
    | some c =>
      rw [hp] at h
      simp only at h
      by_cases hb : q0.1 < L.VFB_MAX_SIZE ∧ q0.2 < L.VFB_MAX_SIZE
      · cases hrest : pixelLoop L sc F fuel cam rest
            (fun y2 x2 => if y2 = q0.1 ∧ x2 = q0.2 then c.1 else vfb y2 x2) with
        | none => simp [storeVfb, hb, hrest] at h
        | some r2 =>
          rcases List.mem_cons.1 hq with rfl | hq
          · exact ⟨hb.1, hb.2, c, hp⟩
          · exact ih _ r2 hrest q hq
      · simp [storeVfb, hb] at h

/-- Two orders that visit the same pixels: when the pass in one order returns, the pass in
the other returns the same state. -/
theorem renderInOrder_same_pixels (L : Lib V C) (sc : Scene V X C) (F : Frame V K)
    (fuel : Nat) (st : RenderState C K) (o1 o2 : List (Nat × Nat))
    (hmem : ∀ q, q ∈ o1 ↔ q ∈ o2) (r1 : RenderState C K × List (Event V X C))
    (h1 : renderInOrder L sc F fuel o1 st = some r1) :
    ∃ r2, renderInOrder L sc F fuel o2 st = some r2 ∧ r2.1 = r1.1 := by
  simp only [renderInOrder] at h1
  cases hp : pixelLoop L sc F fuel (F.camera.beginFrame st.cam) o1 st.vfb with
  | none => simp [hp] at h1
  | some v1 =>
    have hinv := pixelLoop_inv L sc F fuel _ o1 st.vfb v1 hp
    have hpix : ∀ q ∈ o1, q.1 < L.VFB_MAX_SIZE ∧ q.2 < L.VFB_MAX_SIZE ∧
        pixelColor L sc F fuel (F.camera.beginFrame st.cam) q.2 q.1
          = some (((pixelColor L sc F fuel (F.camera.beginFrame st.cam) q.2 q.1).map
              Prod.fst).getD L.black,
            ((pixelColor L sc F fuel (F.camera.beginFrame st.cam) q.2 q.1).map
              Prod.snd).getD []) := by
      intro q hq
      obtain ⟨hb1, hb2, hc⟩ := hinv q hq
      exact ⟨hb1, hb2, some_eq_getD _ _ _ hc⟩
    have e1 := pixelLoop_some L sc F fuel (F.camera.beginFrame st.cam)
      (fun x y => ((pixelColor L sc F fuel (F.camera.beginFrame st.cam) x y).map
        Prod.fst).getD L.black)
      (fun x y => ((pixelColor L sc F fuel (F.camera.beginFrame st.cam) x y).map
        Prod.snd).getD []) o1 st.vfb hpix
    have e2 := pixelLoop_some L sc F fuel (F.camera.beginFrame st.cam)
      (fun x y => ((pixelColor L sc F fuel (F.camera.beginFrame st.cam) x y).map
        Prod.fst).getD L.black)
      (fun x y => ((pixelColor L sc F fuel (F.camera.beginFrame st.cam) x y).map
        Prod.snd).getD []) o2 st.vfb (fun q hq => hpix q ((hmem q).2 hq))
    rw [hp] at h1
    rw [e1] at hp
    have hv1 := (Option.some.inj hp).symm
    simp only [Option.some.injEq] at h1
    refine ⟨_, by simp only [renderInOrder, e2]; rfl, ?_⟩
    rw [← h1, hv1]
    simp only [RenderState.mk.injEq, true_and]
    funext y2 x2
    simp only [hmem (y2, x2)]

theorem renderInOrder_perm (L : Lib V C) (sc : Scene V X C) (F : Frame V K)
    (fuel : Nat) (st : RenderState C K) (o1 o2 : List (Nat × Nat))
    (hmem : ∀ q, q ∈ o1 ↔ q ∈ o2) :
    (renderInOrder L sc F fuel o1 st).map (fun r => r.1)
      = (renderInOrder L sc F fuel o2 st).map (fun r => r.1) := by
  cases h1 : renderInOrder L sc F fuel o1 st with
  | none =>
    cases h2 : renderInOrder L sc F fuel o2 st with
    | none => rfl
    | some r2 =>
      obtain ⟨r1, hr1, _⟩ := renderInOrder_same_pixels L sc F fuel st o2 o1
        (fun q => (hmem q).symm) r2 h2
      rw [h1] at hr1
      exact absurd hr1 (by simp)
  | some r1 =>
    obtain ⟨r2, hr2, he⟩ := renderInOrder_same_pixels L sc F fuel st o1 o2 hmem r1 h1
    rw [hr2]
    simp only [Option.map_some', he]

/-- What `render` leaves when it returns: the state and the log of `render_of_pixels`, with
the pixel colours and logs read off `pixelColor`. -/
theorem render_eq_of_some (L : Lib V C) (sc : Scene V X C) (F : Frame V K) (fuel : Nat)
    (st : RenderState C K) (r : RenderState C K × List (Event V X C))
    (h : render L sc F fuel st = some r) :
    (∀ x y, x < F.frameWidth → y < F.frameHeight →
      y < L.VFB_MAX_SIZE ∧ x < L.VFB_MAX_SIZE ∧
      pixelColor L sc F fuel (F.camera.beginFrame st.cam) x y
        = some (((pixelColor L sc F fuel (F.camera.beginFrame st.cam) x y).map
            Prod.fst).getD L.black,
          ((pixelColor L sc F fuel (F.camera.beginFrame st.cam) x y).map
            Prod.snd).getD [])) ∧
    r = ({ cam := F.camera.beginFrame st.cam
           vfb := fun y x =>
             if y < F.frameHeight ∧ x < F.frameWidth then
               ((pixelColor L sc F fuel (F.camera.beginFrame st.cam) x y).map
                 Prod.fst).getD L.black
             else st.vfb y x },
      Event.beginFrame :: (List.range F.frameHeight).flatMap
        (fun y => (List.range F.frameWidth).flatMap
          (fun x => ((pixelColor L sc F fuel (F.camera.beginFrame st.cam) x y).map
              Prod.snd).getD [] ++
            [Event.store y x (((pixelColor L sc F fuel (F.camera.beginFrame st.cam) x y).map
              Prod.fst).getD L.black)]))) := by
  have hinv := render_inv L sc F fuel st r h
  have hpix : ∀ x y, x < F.frameWidth → y < F.frameHeight →
      y < L.VFB_MAX_SIZE ∧ x < L.VFB_MAX_SIZE ∧
      pixelColor L sc F fuel (F.camera.beginFrame st.cam) x y
        = some (((pixelColor L sc F fuel (F.camera.beginFrame st.cam) x y).map
            Prod.fst).getD L.black,
          ((pixelColor L sc F fuel (F.camera.beginFrame st.cam) x y).map
            Prod.snd).getD []) := by
    intro x y hx hy
    obtain ⟨hb1, hb2, hq⟩ := hinv x y hx hy
    exact ⟨hb1, hb2, some_eq_getD _ _ _ hq⟩
  refine ⟨hpix, ?_⟩
  have e := render_of_pixels L sc F fuel st _ _ hpix
  rw [e] at h
  exact (Option.some.inj h).symm

/-! ## Determinism -/

/-- C16 (determinism). For a fixed scene, environment, flag and resolution and the same
camera state: when `render` returns from one `vfb` it returns from any other with the same
camera state, the same log and the same contents in every cell of the frame; the two
framebuffers are identical throughout when they agreed outside the frame before, and so a
second invocation on the framebuffer left by the first gives back the same framebuffer. -/
theorem render_deterministic (L : Lib V C) (sc : Scene V X C) (F : Frame V K) (fuel : Nat)
    (st1 st2 : RenderState C K) (hcam : st1.cam = st2.cam)
    (r1 : RenderState C K × List (Event V X C)) (h1 : render L sc F fuel st1 = some r1) :
    (∃ r2, render L sc F fuel st2 = some r2 ∧ r2.2 = r1.2 ∧ r2.1.cam = r1.1.cam ∧
      (∀ x y, x < F.frameWidth → y < F.frameHeight → r2.1.vfb y x = r1.1.vfb y x) ∧
      ((∀ x y, ¬ (x < F.frameWidth ∧ y < F.frameHeight) → st2.vfb y x = st1.vfb y x) →
        r2 = r1)) ∧
    render L sc F fuel { cam := st1.cam, vfb := r1.1.vfb } = some r1 := by
  obtain ⟨hpix, hr1⟩ := render_eq_of_some L sc F fuel st1 r1 h1
  have e2 := render_of_pixels L sc F fuel st2 _ _ (by rw [← hcam]; exact hpix)
  have e3 := render_of_pixels L sc F fuel { cam := st1.cam, vfb := r1.1.vfb } _ _ hpix
  constructor
  · refine ⟨_, e2, ?_, ?_, ?_, ?_⟩
    · rw [hr1]
    · rw [hr1, hcam]
    · intro x y hx hy
      rw [hr1]
      simp [hx, hy]
    · intro hout
      rw [hr1, ← hcam]
      refine Prod.ext ?_ rfl
      simp only
      congr 1
      funext y x
      by_cases hin : y < F.frameHeight ∧ x < F.frameWidth
      · simp [hin]
      · simp only [hin, if_false]
        exact hout x y (fun hc => hin ⟨hc.2, hc.1⟩)
  · rw [e3]
    conv_rhs => rw [hr1]
    refine congrArg some (Prod.ext ?_ rfl)
    simp only
    congr 1
    funext y x
    by_cases hin : y < F.frameHeight ∧ x < F.frameWidth
    · simp [hin]
    · simp only [hin, if_false]
      rw [hr1]
      simp [hin]

theorem render_deterministic_witness :
    ∃ r1, render lineLib twoPoints smallFrame 5 (filledState 0) = some r1 ∧
      (∃ r2, render lineLib twoPoints smallFrame 5 (filledState 1) = some r2 ∧
        r2.2 = r1.2 ∧ r2.1.cam = r1.1.cam ∧
        (∀ x y, x < smallFrame.frameWidth → y < smallFrame.frameHeight →
          r2.1.vfb y x = r1.1.vfb y x) ∧
        ((∀ x y, ¬ (x < smallFrame.frameWidth ∧ y < smallFrame.frameHeight) →
            (filledState 1).vfb y x = (filledState 0).vfb y x) → r2 = r1)) ∧
      render lineLib twoPoints smallFrame 5 { cam := (filledState 0).cam, vfb := r1.1.vfb }
        = some r1 :=
  match twoPoints_render 0 with
  | ⟨r1, h1, _⟩ =>
    ⟨r1, h1, render_deterministic lineLib twoPoints smallFrame 5 (filledState 0)
      (filledState 1) rfl r1 h1⟩

/-! ## Pixel independence -/

/-- C17 (pixel independence). The pass over the pixels in row-major order is `render`; a
pass in any permutation of that order returns exactly when `render` does and leaves the same
camera state and framebuffer; and the value `render` leaves in a cell `vfb[y][x]` of the
frame is the colour `pixelColor` computes from the scene, the environment, the camera, the
flag and `(x, y)`, with no framebuffer cell among its arguments. -/
theorem render_any_order (L : Lib V C) (sc : Scene V X C) (F : Frame V K) (fuel : Nat)
    (st : RenderState C K) (order : List (Nat × Nat)) (hperm : order.Perm (rowMajor F)) :
    renderInOrder L sc F fuel (rowMajor F) st = render L sc F fuel st ∧
    (renderInOrder L sc F fuel order st).map (fun r => r.1)
      = (render L sc F fuel st).map (fun r => r.1) ∧
    (∀ r, render L sc F fuel st = some r →
      ∀ x y, x < F.frameWidth → y < F.frameHeight →
        ∃ l, pixelColor L sc F fuel (F.camera.beginFrame st.cam) x y
          = some (r.1.vfb y x, l)) := by
  refine ⟨renderInOrder_rowMajor L sc F fuel st, ?_, ?_⟩
  · rw [← renderInOrder_rowMajor L sc F fuel st]
    exact renderInOrder_perm L sc F fuel st order (rowMajor F) (fun q => hperm.mem_iff)
  · intro r h x y hx hy
    obtain ⟨hpix, hr⟩ := render_eq_of_some L sc F fuel st r h
    have hv : r.1.vfb y x
        = ((pixelColor L sc F fuel (F.camera.beginFrame st.cam) x y).map
            Prod.fst).getD L.black := by
      rw [hr]
      simp [hx, hy]
    rw [hv]
    exact ⟨_, (hpix x y hx hy).2.2⟩

theorem render_any_order_witness :
    renderInOrder lineLib twoPoints smallFrame 5 (rowMajor smallFrame) (filledState 0)
      = render lineLib twoPoints smallFrame 5 (filledState 0) ∧
    (renderInOrder lineLib twoPoints smallFrame 5 [(0, 1), (0, 0)] (filledState 0)).map
        (fun r => r.1)
      = (render lineLib twoPoints smallFrame 5 (filledState 0)).map (fun r => r.1) ∧
    (∀ r, render lineLib twoPoints smallFrame 5 (filledState 0) = some r →
      ∀ x y, x < smallFrame.frameWidth → y < smallFrame.frameHeight →
        ∃ l, pixelColor lineLib twoPoints smallFrame 5
            (smallFrame.camera.beginFrame (filledState 0).cam) x y
          = some (r.1.vfb y x, l)) :=
  render_any_order lineLib twoPoints smallFrame 5 (filledState 0) [(0, 1), (0, 0)]
    (List.Perm.swap (0, 0) (0, 1) [])

/-! ## What the log of a frame holds -/

theorem visibleLoop_log_inSample (L : Lib V C) (ray : Ray V) (maxDist : Dbl) :
    ∀ (nodes : List (Node V X C)) (i : Nat),
      ∀ e ∈ (visibleLoop L ray maxDist i nodes).2, e.inSample = true := by
  intro nodes
  induction nodes with
  | nil => intro i e he; simp [visibleLoop] at he
  | cons n rest ih =>
    intro i e he
    simp only [visibleLoop] at he
    split at he
    · simp only [List.mem_singleton] at he
      rw [he]
      rfl
    · rcases List.mem_cons.1 he with rfl | he
      · rfl
      · exact ih (i + 1) e he

theorem intersectLog_inSample (ray : Ray V) (n : Nat) :
    ∀ e ∈ (intersectLog ray n : List (Event V X C)), e.inSample = true := by
  intro e he
  simp only [intersectLog, List.mem_map] at he
  obtain ⟨j, _, rfl⟩ := he
  rfl

theorem runShade_log_inSample (L : Lib V C) (sc : Scene V X C)
    (cb : Ray V → Option (C × List (Event V X C)))
    (hcb : ∀ r c l, cb r = some (c, l) → ∀ e ∈ l, e.inSample = true) :
    ∀ (p : ShadeProg V C) (c : C) (l : List (Event V X C)),
      runShade L sc cb p = some (c, l) → ∀ e ∈ l, e.inSample = true := by
  intro p
  induction p with
  | done c0 =>
    intro c l h e he
    simp only [runShade, Option.some.injEq, Prod.mk.injEq] at h
    rw [← h.2] at he
    simp at he
  | trace r k ih =>
    intro c l h e he
    simp only [runShade] at h
    cases hr : cb r with
    | none => simp [hr] at h
    | some x =>
      rw [hr] at h
      simp only at h
      cases hk : runShade L sc cb (k x.1) with
      | none => simp [hk] at h
      | some z =>
        rw [hk] at h
        simp only [Option.some.injEq, Prod.mk.injEq] at h
        rw [← h.2] at he
        rcases List.mem_append.1 he with he | he
        · exact hcb r x.1 x.2 hr e he
        · exact ih x.1 z.1 z.2 hk e he
  | visible a b k ih =>
    intro c l h e he
    simp only [runShade] at h
    cases hk : runShade L sc cb (k (visible L sc a b).1) with
    | none => simp [hk] at h
    | some z =>
      rw [hk] at h
      simp only [Option.some.injEq, Prod.mk.injEq] at h
      rw [← h.2] at he
      rcases List.mem_append.1 he with he | he
      · exact visibleLoop_log_inSample L _ _ sc.nodes 0 e he
      · exact ih _ z.1 z.2 hk e he

/-- The log of a `raytrace` call starts with its own entry and holds only entries of
`raytrace`, `intersect`, `shade` and the environment. -/
theorem raytrace_log (L : Lib V C) (sc : Scene V X C) :
    ∀ (fuel : Nat) (ray : Ray V) (c : C) (l : List (Event V X C)),
      raytrace L sc fuel ray = some (c, l) →
      (∃ l2, l = Event.raytrace ray :: l2) ∧ ∀ e ∈ l, e.inSample = true := by
  intro fuel
  induction fuel with
  | zero => intro ray c l h; simp [raytrace] at h
  | succ n ih =>
    intro ray c l h
    by_cases hd : ray.depth > L.MAX_TRACE_DEPTH
    · rw [raytrace_beyond_limit L sc n ray hd] at h
      simp only [Option.some.injEq, Prod.mk.injEq] at h
      rw [← h.2]
      refine ⟨⟨_, rfl⟩, ?_⟩
      intro e he
      simp only [List.mem_singleton] at he
      rw [he]
      rfl
    · rcases raytrace_cases_attains L sc ray (by omega) with ⟨_, hfb⟩ | ⟨k, node, _, hs⟩
      · rw [hfb n] at h
        by_cases hl : sc.env.loaded = true
        · rw [if_pos hl] at h
          simp only [Option.some.injEq, Prod.mk.injEq] at h
          rw [← h.2]
          refine ⟨⟨_, rfl⟩, ?_⟩
          intro e he
          rcases List.mem_cons.1 he with rfl | he
          · rfl
          · rcases List.mem_append.1 he with he | he
            · exact intersectLog_inSample ray _ e he
            · simp only [List.mem_singleton] at he
              rw [he]
              rfl
        · rw [if_neg hl] at h
          simp only [Option.some.injEq, Prod.mk.injEq] at h
          rw [← h.2]
          refine ⟨⟨_, rfl⟩, ?_⟩
          intro e he
          rcases List.mem_cons.1 he with rfl | he
          · rfl
          · exact intersectLog_inSample ray _ e he
      · have h1 := hs n
        rw [ShadesWith, h] at h1
        cases hrun : runShade L sc (raytrace L sc n) (node.shader ray (node.info L ray)) with
        | none => simp [hrun] at h1
        | some z =>
          rw [hrun] at h1
          simp only [Option.map_some', Option.some.injEq, Prod.mk.injEq] at h1
          rw [h1.2]
          refine ⟨⟨_, rfl⟩, ?_⟩
          intro e he
          rcases List.mem_cons.1 he with rfl | he
          · rfl
          · rcases List.mem_append.1 he with he | he
            · exact intersectLog_inSample ray _ e he
            · rcases List.mem_cons.1 he with rfl | he
              · rfl
              · exact runShade_log_inSample L sc (raytrace L sc n)
                  (fun r c2 l2 hr => (ih r c2 l2 hr).2) _ z.1 z.2 hrun e he

theorem sampleAt_log (L : Lib V C) (sc : Scene V X C) (F : Frame V K) (fuel : Nat) (cam : K)
    (x y i : Nat) (c : C) (l : List (Event V X C))
    (h : sampleAt L sc F fuel cam x y i = some (c, l)) :
    ∀ e ∈ l, e.inSample = true := by
  obtain ⟨l2, hl, hr⟩ := raytraceXY_some L sc F fuel cam _ _ c l h
  intro e he
  rw [hl] at he
  rcases List.mem_cons.1 he with rfl | he
  · rfl
  · exact (raytrace_log L sc fuel _ c l2 hr).2 e he

theorem aaLoop_inv (L : Lib V C) (sc : Scene V X C) (F : Frame V K) (fuel : Nat) (cam : K)
    (x y : Nat) :
    ∀ (is : List Nat) (avg : C) (r : C × List (Event V X C)),
      aaLoop L sc F fuel cam x y is avg = some r →
      ∀ i ∈ is, ∃ q, sampleAt L sc F fuel cam x y i = some q := by
  intro is
  induction is with
  | nil => intro avg r _ i hi; simp at hi
  | cons i0 rest ih =>
    intro avg r h i hi
    simp only [aaLoop] at h
    cases hs : raytraceXY L sc F fuel cam ((x : ℚ) + (offsetAt i0).1)
        ((y : ℚ) + (offsetAt i0).2) with
    | none => simp [hs] at h
    | some q =>
      rw [hs] at h
      simp only at h
      cases hrest : aaLoop L sc F fuel cam x y rest (L.add avg q.1) with
      | none => simp [hrest] at h
      | some r2 =>
        rcases List.mem_cons.1 hi with rfl | hi
        · exact ⟨q, hs⟩
        · exact ih _ r2 hrest i hi

/-- When the colour of a pixel is computed, each of its samples returned, and the pixel's log
is the logs of its samples in the order of `offsets`. -/
theorem pixelColor_log (L : Lib V C) (sc : Scene V X C) (F : Frame V K) (fuel : Nat)
    (cam : K) (x y : Nat) (q : C × List (Event V X C))
    (h : pixelColor L sc F fuel cam x y = some q) :
    (∀ i, i < samplesPerPixel F → ∃ r, sampleAt L sc F fuel cam x y i = some r) ∧
    q.2 = (List.range (samplesPerPixel F)).flatMap
      (fun i => ((sampleAt L sc F fuel cam x y i).map Prod.snd).getD []) := by
  by_cases haa : F.antialiasing = true
  · have hall : ∀ i, i < 5 → ∃ r, sampleAt L sc F fuel cam x y i = some r := by
      have h2 := h
      simp only [pixelColor, haa, if_true, aa_indices] at h2
      cases h0 : raytraceXY L sc F fuel cam ((x : ℚ) + (offsetAt 0).1)
          ((y : ℚ) + (offsetAt 0).2) with
      | none => simp [h0] at h2
      | some r0 =>
        rw [h0] at h2
        simp only at h2
        cases hloop : aaLoop L sc F fuel cam x y [1, 2, 3, 4] r0.1 with
        | none => simp [hloop] at h2
        | some r1 =>
          have hinv := aaLoop_inv L sc F fuel cam x y [1, 2, 3, 4] r0.1 r1 hloop
          intro i hi
          match i with
          | 0 => exact ⟨r0, h0⟩
          | 1 => exact hinv 1 (by simp)
          | 2 => exact hinv 2 (by simp)
          | 3 => exact hinv 3 (by simp)
          | 4 => exact hinv 4 (by simp)
          | j + 5 => omega
    have hn : samplesPerPixel F = 5 := by simp [samplesPerPixel, haa, numAASamples, offsets]
    rw [hn]
    refine ⟨hall, ?_⟩
    have e := pixelColor_antialiased L sc F fuel cam x y haa
      (fun i => ((sampleAt L sc F fuel cam x y i).map Prod.fst).getD L.black)
      (fun i => ((sampleAt L sc F fuel cam x y i).map Prod.snd).getD [])
      (fun i hi => some_eq_getD _ _ _ (hall i hi))
    rw [e] at h
    rw [← Option.some.inj h]
    simp [List.range, List.range.loop]
  · have haa2 : F.antialiasing = false := by simpa using haa
    have hn : samplesPerPixel F = 1 := by simp [samplesPerPixel, haa2]
    rw [hn]
    rw [pixelColor_single L sc F fuel cam x y haa2] at h
    refine ⟨?_, ?_⟩
    · intro i hi
      have hi0 : i = 0 := by omega
      rw [hi0]
      exact ⟨q, h⟩
    · simp [List.range, List.range.loop, h]

theorem pixelColor_log_inSample (L : Lib V C) (sc : Scene V X C) (F : Frame V K)
    (fuel : Nat) (cam : K) (x y : Nat) (q : C × List (Event V X C))
    (h : pixelColor L sc F fuel cam x y = some q) :
    ∀ e ∈ q.2, e.inSample = true := by
  obtain ⟨hall, hq⟩ := pixelColor_log L sc F fuel cam x y q h
  intro e he
  rw [hq] at he
  obtain ⟨i, hi, hei⟩ := List.mem_flatMap.1 he
  obtain ⟨r, hr⟩ := hall i (List.mem_range.1 hi)
  rw [hr] at hei
  exact sampleAt_log L sc F fuel cam x y i r.1 r.2 hr e hei

theorem flatMap_congr_mem {α β : Type} (l : List α) (f g : α → List β)
    (h : ∀ a ∈ l, f a = g a) : l.flatMap f = l.flatMap g := by
  induction l with
  | nil => rfl
  | cons a rest ih =>
    simp only [List.flatMap_cons, h a (List.mem_cons_self _ _),
      ih (fun b hb => h b (List.mem_cons_of_mem _ hb))]

theorem flatMap_singleton_eq_map {α β : Type} (l : List α) (f : α → β) :
    l.flatMap (fun a => [f a]) = l.map f := by
  induction l with
  | nil => rfl
  | cons a rest ih => simp only [List.flatMap_cons, List.map_cons, ih, List.singleton_append]

theorem filterMap_storeIndex_nil (l : List (Event V X C))
    (h : ∀ e ∈ l, e.inSample = true) : l.filterMap Event.storeIndex = [] := by
  induction l with
  | nil => rfl
  | cons e rest ih =>
    have he := h e (List.mem_cons_self _ _)
    have hrest := ih (fun b hb => h b (List.mem_cons_of_mem _ hb))
    cases e <;> simp_all [Event.storeIndex, Event.inSample]

theorem rowMajor_nodup (F : Frame V K) : (rowMajor F).Nodup := by
  rw [rowMajor, List.nodup_flatMap]
  constructor
  · intro y _
    exact List.Nodup.map (fun a b hab => (Prod.mk.inj hab).2) (List.nodup_range _)
  · refine List.Pairwise.imp ?_ (List.nodup_range F.frameHeight)
    intro a b hab
    simp only [Function.onFun, List.Disjoint]
    intro q hqa hqb
    simp only [List.mem_map, List.mem_range] at hqa hqb
    obtain ⟨x1, _, rfl⟩ := hqa
    obtain ⟨x2, _, h2⟩ := hqb
    exact hab (Prod.mk.inj h2).1.symm

/-! ## The camera setup of a frame -/

/-- C19 (per-frame camera setup). When `render` returns: the camera state it leaves is the
one a single `beginFrame` produces; the log starts with `beginFrame` and has no other
`beginFrame` entry; and after it the log is, pixel after pixel, for each sample the entry
`getScreenRay(x + ox, y + oy)` followed by the log of `raytrace` on the ray that
`getScreenRay` gives for these coordinates on the camera state produced by that
`beginFrame`, and then the store. -/
theorem render_beginFrame_once (L : Lib V C) (sc : Scene V X C) (F : Frame V K) (fuel : Nat)
    (st : RenderState C K) (r : RenderState C K × List (Event V X C))
    (h : render L sc F fuel st = some r) :
    r.1.cam = F.camera.beginFrame st.cam ∧
    ∃ (rest : List (Event V X C)) (smp : Nat → Nat → Nat → C × List (Event V X C)),
      r.2 = Event.beginFrame :: rest ∧
      (∀ e ∈ rest, e ≠ Event.beginFrame) ∧
      (∀ x y i, x < F.frameWidth → y < F.frameHeight → i < samplesPerPixel F →
        raytrace L sc fuel (F.camera.getScreenRay (F.camera.beginFrame st.cam)
          ((x : ℚ) + (offsetAt i).1) ((y : ℚ) + (offsetAt i).2)) = some (smp x y i)) ∧
      rest = (List.range F.frameHeight).flatMap (fun y =>
        (List.range F.frameWidth).flatMap (fun x =>
          (List.range (samplesPerPixel F)).flatMap (fun i =>
            Event.getScreenRay ((x : ℚ) + (offsetAt i).1) ((y : ℚ) + (offsetAt i).2) ::
              (smp x y i).2) ++
          [Event.store y x (r.1.vfb y x)])) := by
  obtain ⟨hpix, hr⟩ := render_eq_of_some L sc F fuel st r h
  subst hr
  refine ⟨rfl, _, fun x y i =>
    (raytrace L sc fuel (F.camera.getScreenRay (F.camera.beginFrame st.cam)
      ((x : ℚ) + (offsetAt i).1) ((y : ℚ) + (offsetAt i).2))).getD (L.black, []),
    rfl, ?_, ?_, ?_⟩
  · intro e he
    obtain ⟨y, hy, he⟩ := List.mem_flatMap.1 he
    obtain ⟨x, hx, he⟩ := List.mem_flatMap.1 he
    have hp := (hpix x y (List.mem_range.1 hx) (List.mem_range.1 hy)).2.2
    rcases List.mem_append.1 he with he | he
    · have hs := pixelColor_log_inSample L sc F fuel _ x y _ hp e he
      intro hc
      rw [hc] at hs
      exact absurd hs (by simp [Event.inSample])
    · simp only [List.mem_singleton] at he
      rw [he]
      intro hc
      cases hc
  · intro x y i hx hy hi
    obtain ⟨hall, _⟩ := pixelColor_log L sc F fuel _ x y _ (hpix x y hx hy).2.2
    obtain ⟨q, hq⟩ := hall i hi
    obtain ⟨l2, _, hray⟩ := raytraceXY_some L sc F fuel _ _ _ q.1 q.2 hq
    simp only [hray, Option.getD_some]
  · apply flatMap_congr_mem
    intro y hy
    apply flatMap_congr_mem
    intro x hx
    have hx2 := List.mem_range.1 hx
    have hy2 := List.mem_range.1 hy
    obtain ⟨hall, hlog⟩ := pixelColor_log L sc F fuel _ x y _ (hpix x y hx2 hy2).2.2
    simp only at hlog
    rw [hlog]
    simp only [hx2, hy2, and_self, if_true]
    congr 1
    apply flatMap_congr_mem
    intro i hi
    obtain ⟨q, hq⟩ := hall i (List.mem_range.1 hi)
    obtain ⟨l2, hl2, hray⟩ := raytraceXY_some L sc F fuel _ _ _ q.1 q.2 hq
    rw [hq, hray]
    exact hl2

theorem render_beginFrame_once_witness :
    ∃ r, render lineLib twoPoints smallFrame 5 (filledState 0) = some r ∧
      r.1.cam = smallFrame.camera.beginFrame (filledState 0).cam ∧
      ∃ (rest : List (Event ℚ Unit ℚ)) (smp : Nat → Nat → Nat → ℚ × List (Event ℚ Unit ℚ)),
        r.2 = Event.beginFrame :: rest ∧
        (∀ e ∈ rest, e ≠ Event.beginFrame) ∧
        (∀ x y i, x < smallFrame.frameWidth → y < smallFrame.frameHeight →
          i < samplesPerPixel smallFrame →
          raytrace lineLib twoPoints 5
            (smallFrame.camera.getScreenRay (smallFrame.camera.beginFrame (filledState 0).cam)
              ((x : ℚ) + (offsetAt i).1) ((y : ℚ) + (offsetAt i).2)) = some (smp x y i)) ∧
        rest = (List.range smallFrame.frameHeight).flatMap (fun y =>
          (List.range smallFrame.frameWidth).flatMap (fun x =>
            (List.range (samplesPerPixel smallFrame)).flatMap (fun i =>
              Event.getScreenRay ((x : ℚ) + (offsetAt i).1) ((y : ℚ) + (offsetAt i).2) ::
                (smp x y i).2) ++
            [Event.store y x (r.1.vfb y x)])) :=
  match twoPoints_render 0 with
  | ⟨r, h, _⟩ =>
    ⟨r, h, render_beginFrame_once lineLib twoPoints smallFrame 5 (filledState 0) r h⟩

/-! ## The cells render assigns -/

theorem replayStores_append (l1 l2 : List (Event V X C)) :
    ∀ vfb : Nat → Nat → C,
      replayStores (l1 ++ l2) vfb = replayStores l2 (replayStores l1 vfb) := by
  induction l1 with
  | nil => intro vfb; rfl
  | cons e rest ih =>
    intro vfb
    cases e <;> exact ih _

theorem replayStores_inSample (l : List (Event V X C)) (h : ∀ e ∈ l, e.inSample = true) :
    ∀ vfb : Nat → Nat → C, replayStores l vfb = vfb := by
  induction l with
  | nil => intro vfb; rfl
  | cons e rest ih =>
    intro vfb
    have he := h e (List.mem_cons_self _ _)
    have hrest := ih (fun b hb => h b (List.mem_cons_of_mem _ hb))
    cases e <;> simp_all [replayStores, Event.inSample]

/-- The array a pass over pixels leaves is the array it started from with the stores of its
log made in order. -/
theorem pixelLoop_replay (L : Lib V C) (sc : Scene V X C) (F : Frame V K) (fuel : Nat)
    (cam : K) :
    ∀ (ps : List (Nat × Nat)) (vfb : Nat → Nat → C)
      (r : (Nat → Nat → C) × List (Event V X C)),
      pixelLoop L sc F fuel cam ps vfb = some r → replayStores r.2 vfb = r.1 := by
  intro ps
  induction ps with
  | nil =>
    intro vfb r h
    simp only [pixelLoop, Option.some.injEq] at h
    rw [← h]
    rfl
  | cons q rest ih =>
    intro vfb r h
    simp only [pixelLoop, renderPixel] at h
    cases hp : pixelColor L sc F fuel cam q.2 q.1 with
    | none => simp [hp] at h
    | some c =>
      rw [hp] at h
      simp only at h
      by_cases hb : q.1 < L.VFB_MAX_SIZE ∧ q.2 < L.VFB_MAX_SIZE
      · cases hrest : pixelLoop L sc F fuel cam rest
            (fun y2 x2 => if y2 = q.1 ∧ x2 = q.2 then c.1 else vfb y2 x2) with
        | none => simp [storeVfb, hb, hrest] at h
        | some r2 =>
          simp only [storeVfb, hb, and_self, if_true, hrest, Option.some.injEq] at h
          rw [← h]
          simp only
          rw [replayStores_append, replayStores_append,
            replayStores_inSample _ (pixelColor_log_inSample L sc F fuel cam q.2 q.1 c hp)]
          exact ih _ r2 hrest
      · simp [storeVfb, hb] at h

/-- The framebuffer `render` leaves is the one it started from with the stores of its log
made in order. -/
theorem render_replay (L : Lib V C) (sc : Scene V X C) (F : Frame V K) (fuel : Nat)
    (st : RenderState C K) (r : RenderState C K × List (Event V X C))
    (h : render L sc F fuel st = some r) : replayStores r.2 st.vfb = r.1.vfb := by
  rw [← renderInOrder_rowMajor] at h
  simp only [renderInOrder] at h
  cases hp : pixelLoop L sc F fuel (F.camera.beginFrame st.cam) (rowMajor F) st.vfb with
  | none => simp [hp] at h
  | some v =>
    rw [hp] at h
    simp only [Option.some.injEq] at h
    rw [← h]
    exact pixelLoop_replay L sc F fuel _ _ st.vfb v hp

/-- C20 (write set). When `render` returns on a frame with `frameWidth` and `frameHeight` at
most `VFB_MAX_SIZE`: the framebuffer it leaves is the one it started from with the stores of
the log made in order; the cells these stores assign, in that order, are the row-major list
of the pairs `(y, x)` with `y < frameHeight` and `x < frameWidth`, in which no pair occurs
twice; each of these indices is below `VFB_MAX_SIZE` in both coordinates; each of these
cells holds afterwards the value stored into it, the colour of its pixel; and every other
cell of `vfb` holds the value it had before. -/
theorem render_write_set (L : Lib V C) (sc : Scene V X C) (F : Frame V K) (fuel : Nat)
    (st : RenderState C K) (hW : F.frameWidth ≤ L.VFB_MAX_SIZE)
    (hH : F.frameHeight ≤ L.VFB_MAX_SIZE)
    (r : RenderState C K × List (Event V X C)) (h : render L sc F fuel st = some r) :
    r.1.vfb = replayStores r.2 st.vfb ∧
    r.2.filterMap Event.storeIndex = rowMajor F ∧
    (rowMajor F).Nodup ∧
    (∀ y x, (y, x) ∈ rowMajor F ↔ y < F.frameHeight ∧ x < F.frameWidth) ∧
    (∀ y x, (y, x) ∈ rowMajor F → y < L.VFB_MAX_SIZE ∧ x < L.VFB_MAX_SIZE) ∧
    (∀ y x, (y, x) ∈ rowMajor F →
      ∃ c l, pixelColor L sc F fuel (F.camera.beginFrame st.cam) x y = some (c, l) ∧
        Event.store y x c ∈ r.2 ∧ r.1.vfb y x = c) ∧
    (∀ y x, (y, x) ∉ rowMajor F → r.1.vfb y x = st.vfb y x) := by
  have hrep := render_replay L sc F fuel st r h
  obtain ⟨hpix, hr⟩ := render_eq_of_some L sc F fuel st r h
  refine ⟨hrep.symm, ?_⟩
  clear hrep
  subst hr
  refine ⟨?_, rowMajor_nodup F, mem_rowMajor F, ?_, ?_, ?_⟩
  · simp only [List.filterMap_cons, Event.storeIndex, List.filterMap_flatMap, rowMajor]
    apply flatMap_congr_mem
    intro y hy
    rw [← flatMap_singleton_eq_map]
    apply flatMap_congr_mem
    intro x hx
    have hp := (hpix x y (List.mem_range.1 hx) (List.mem_range.1 hy)).2.2
    rw [List.filterMap_append,
      filterMap_storeIndex_nil _ (pixelColor_log_inSample L sc F fuel _ x y _ hp)]
    rfl
  · intro y x hm
    have hm2 := (mem_rowMajor F y x).1 hm
    exact ⟨by omega, by omega⟩
  · intro y x hm
    have hm2 := (mem_rowMajor F y x).1 hm
    refine ⟨_, _, (hpix x y hm2.2 hm2.1).2.2, ?_, ?_⟩
    · apply List.mem_cons_of_mem
      apply List.mem_flatMap.2
      refine ⟨y, List.mem_range.2 hm2.1, ?_⟩
      apply List.mem_flatMap.2
      refine ⟨x, List.mem_range.2 hm2.2, ?_⟩
      exact List.mem_append_right _ (List.mem_singleton.2 rfl)
    · simp [hm2]
  · intro y x hm
    have hm2 : ¬ (y < F.frameHeight ∧ x < F.frameWidth) := fun hc =>
      hm ((mem_rowMajor F y x).2 hc)
    simp [hm2]

theorem render_write_set_witness :
    ∃ r, render lineLib twoPoints smallFrame 5 (filledState 0) = some r ∧
      r.1.vfb = replayStores r.2 (filledState 0).vfb ∧
      r.2.filterMap Event.storeIndex = rowMajor smallFrame ∧
      (rowMajor smallFrame).Nodup ∧
      (∀ y x, (y, x) ∈ rowMajor smallFrame ↔
        y < smallFrame.frameHeight ∧ x < smallFrame.frameWidth) ∧
      (∀ y x, (y, x) ∈ rowMajor smallFrame →
        y < lineLib.VFB_MAX_SIZE ∧ x < lineLib.VFB_MAX_SIZE) ∧
      (∀ y x, (y, x) ∈ rowMajor smallFrame →
        ∃ c l, pixelColor lineLib twoPoints smallFrame 5
            (smallFrame.camera.beginFrame (filledState 0).cam) x y = some (c, l) ∧
          Event.store y x c ∈ r.2 ∧ r.1.vfb y x = c) ∧
      (∀ y x, (y, x) ∉ rowMajor smallFrame → r.1.vfb y x = (filledState 0).vfb y x) :=
  match twoPoints_render 0 with
  | ⟨r, h, _⟩ =>
    ⟨r, h, render_write_set lineLib twoPoints smallFrame 5 (filledState 0) (by decide)
      (by decide) r h⟩

end Proofs

end Fray
